import Mathlib

/-!
Verification development for the Orange County tax-deed scraper
(`scraper.py`).  The Python source is shallowly embedded: strings are
`List Char`, regular-expression searches are hand-compiled into
character-list scanners that reproduce the exact backtracking behaviour
of the concrete patterns in the source, and the per-record pipeline of
`run()` is an explicit step function over an environment describing the
outcome of each external interaction (browser navigation, PDF fetch,
OCR, ingestion backend, checkpoint backend).
-/

namespace TaxSale

/-- Strings are modelled at character level. -/
abbrev Chars := List Char

/-- Python whitespace (`str.strip` default set and regex `\s` over ASCII). -/
def isWS (c : Char) : Bool :=
  c = ' ' || c = '\t' || c = '\n' || c = '\r' || c = '\x0b' || c = '\x0c'

/-- Lower-casing used to model the `re.I` flag (ASCII). -/
def lc (c : Char) : Char := c.toLower

/-- Python `str.strip()`. -/
def trimChars (s : Chars) : Chars :=
  ((s.dropWhile isWS).reverse.dropWhile isWS).reverse

/-- Python `"\n".join`. -/
def joinNL : List Chars → Chars
  | [] => []
  | [t] => t
  | t :: ts => t ++ '\n' :: joinNL ts

/-- Case-insensitive literal prefix test (`re.I` literal matching). -/
def ciPrefixB : Chars → Chars → Bool
  | [], _ => true
  | _ :: _, [] => false
  | a :: as, b :: bs => (lc b = lc a) && ciPrefixB as bs

/-- Generic leftmost-match scanner: `re.search` tries every start
position left to right, including the empty suffix at the end. -/
def scanFirst (tryAt : Chars → Option α) : Chars → Option α
  | [] => tryAt []
  | c :: cs =>
    match tryAt (c :: cs) with
    | some v => some v
    | none => scanFirst tryAt cs

/-- `input.py` row: one auction listing as produced by
`extract_lots_from_printable`. -/
structure Lot where
  node : String
  tax_sale_url : String
  row_text : Chars
deriving DecidableEq

/-- `scraper.py` lines 549-555: slice the freshly fetched lot list after a
recorded `last_node`.  `if START_AFTER_LAST_NODE and last_node:` — a `None`
or empty `last_node` is falsy and leaves the list untouched. -/
def resume_lots (startAfter : Bool) (lastNode : Option String) (lots : List Lot) :
    List Lot :=
  match startAfter, lastNode with
  | true, some ln =>
    if ln = "" then lots
    else
      match lots.findIdx? (fun l => l.node == ln) with
      | some pos => lots.drop (pos + 1)
      | none => lots
  | _, _ => lots

/-- `is_numbered_street_address` (lines 112-124): `None`/`""` are falsy and
rejected; otherwise the stripped address must match `^\d{1,6}\s+\S`. -/
def is_numbered_street_address (addr : Option Chars) : Bool :=
  match addr with
  | none => false
  | some s =>
    if s = [] then false
    else
      let a := trimChars s
      let ds := a.takeWhile (·.isDigit)
      let rest := a.dropWhile (·.isDigit)
      let tl := rest.dropWhile isWS
      decide (1 ≤ ds.length) && decide (ds.length ≤ 6) &&
        decide (rest.length > tl.length) && !tl.isEmpty

/-- `normalize_bid_for_payload` (lines 214-221): strip, drop commas, keep
only digits and dots (`re.sub(r"[^0-9.]", "", s.replace(",", ""))`), and
return `None` for an empty result. -/
def normalize_bid_for_payload (v : Option Chars) : Option Chars :=
  match v with
  | none => none
  | some raw =>
    let s := trimChars raw
    if s = [] then none
    else
      let cleaned := (s.filter (fun c => c ≠ ',')).filter
        (fun c => c.isDigit || c = '.')
      if cleaned = [] then none else some cleaned

/-- Outcome of one HTTP POST to the ingestion backend. -/
inductive HttpResult where
  | ok            -- 200 or 201
  | unauthorized  -- 401
  | httpErr       -- any other status code
  | exn           -- requests raised an exception
deriving DecidableEq

/-- Observable behaviour of `post_to_app`: whether a truthy result was
returned, how many POSTs were issued, and the argument of each
`time.sleep(1.0 * attempt)` executed (in seconds). -/
structure PostResult where
  ok : Bool
  attempts : Nat
  sleeps : List Nat
deriving DecidableEq

/-- The `for attempt in range(1, 4)` loop of `post_to_app` (lines
233-254): success returns immediately, a 401 returns `None` immediately,
anything else sleeps `1.0 * attempt` seconds and retries. -/
def post_loop (resp : Nat → HttpResult) : Nat → Nat → PostResult
  | _, 0 => ⟨false, 0, []⟩
  | attempt, r + 1 =>
    match resp attempt with
    | .ok => ⟨true, 1, []⟩
    | .unauthorized => ⟨false, 1, []⟩
    | _ =>
      let p := post_loop resp (attempt + 1) r
      ⟨p.ok, p.attempts + 1, attempt :: p.sleeps⟩

/-- `post_to_app` (lines 224-257): guarded by `SEND_TO_APP`, then at most
three attempts. -/
def post_to_app (sendToApp : Bool) (resp : Nat → HttpResult) : PostResult :=
  if sendToApp then post_loop resp 1 3 else ⟨false, 0, []⟩

/-- One PDF page: the text the native extractor would return for it and
the text OCR would return for it. -/
structure PdfPage where
  native : Chars
  ocr : Chars
deriving DecidableEq

/-- `try_pdfplumber_text` (lines 320-330): join the non-empty stripped
page texts with newlines and strip the result. -/
def try_pdfplumber_text (pages : List PdfPage) : Chars :=
  trimChars (joinNL ((pages.map (fun p => trimChars p.native)).filter
    (fun t => t ≠ [])))

/-- `ocr_pdf_bytes` (lines 333-347): OCR exactly
`min(n_pages, max_pages)` pages; also report that page count. -/
def ocr_pdf_bytes (pages : List PdfPage) (max_pages : Nat) : Chars × Nat :=
  let pages_to_do := min pages.length max_pages
  (trimChars (joinNL (((pages.take pages_to_do).map PdfPage.ocr).filter
    (fun t => t ≠ []))), pages_to_do)

/-- Observable behaviour of `open_viewer_with_retry`: whether the final
URL is still the challenge page, how many navigation attempts were made,
and how many `human_backoff` waits were executed. -/
structure ViewerOut where
  blocked : Bool
  attempts : Nat
  backoffs : Nat
deriving DecidableEq

/-- The retry loop of `open_viewer_with_retry` (lines 496-514):
`challenge a` tells whether attempt `a` lands on `checkHuman.jsp`. -/
def viewer_loop (challenge : Nat → Bool) : Nat → Nat → ViewerOut
  | _, 0 => ⟨true, 0, 0⟩
  | attempt, r + 1 =>
    if challenge attempt then
      let v := viewer_loop challenge (attempt + 1) r
      ⟨v.blocked, v.attempts + 1, v.backoffs + 1⟩
    else ⟨false, 1, 0⟩

/-- `open_viewer_with_retry`: with zero configured retries the loop body
never runs and the empty initial URL is not a challenge URL. -/
def open_viewer_with_retry (challenge : Nat → Bool) (maxRetries : Nat) :
    ViewerOut :=
  if maxRetries = 0 then ⟨false, 0, 0⟩ else viewer_loop challenge 1 maxRetries

/-- Leftmost-match scanner that also reports the match start index. -/
def scanFirstIdx (tryAt : Chars → Option α) : Chars → Option (Nat × α)
  | [] => (tryAt []).map (fun v => (0, v))
  | c :: cs =>
    match tryAt (c :: cs) with
    | some v => some (0, v)
    | none => (scanFirstIdx tryAt cs).map (fun p => (p.1 + 1, p.2))

/-- Greedy `\s*` with regex backtracking: try the continuation after the
maximal whitespace run first, then after ever shorter runs. -/
def wsBacktrack (f : Chars → Option α) (s : Chars) : Nat → Option α
  | 0 => f s
  | i + 1 =>
    match f (s.drop (i + 1)) with
    | some v => some v
    | none => wsBacktrack f s i

def tryWsStar (f : Chars → Option α) (s : Chars) : Option α :=
  wsBacktrack f s (s.takeWhile isWS).length

/-- Lazy `(C+?)` followed by a boundary: the shortest non-empty run of
class characters after which the boundary matches. -/
def lazyClassCapture (cls : Char → Bool) (bdry : Chars → Bool) : Chars → Option Chars
  | [] => none
  | c :: cs =>
    if cls c then
      if bdry cs then some [c]
      else
        match lazyClassCapture cls bdry cs with
        | some t => some (c :: t)
        | none => none
    else none

/-- Exactly `n` digits (`\d{n}` with a fixed count). -/
def takeDigits (n : Nat) (s : Chars) : Option (Chars × Chars) :=
  let d := s.take n
  if d.length == n && d.all (·.isDigit) then some (d, s.drop n) else none

/-- `Tax Sale\s+(\d{4}-\d+)` tried at the head of `s` (case-insensitive). -/
def tryTaxSaleAt (s : Chars) : Option Chars :=
  if ciPrefixB ("tax sale".toList) s then
    let s1 := s.drop 8
    if (s1.takeWhile isWS) = [] then none
    else
      let s2 := s1.dropWhile isWS
      match takeDigits 4 s2 with
      | some (d4, '-' :: s3) =>
        let ds := s3.takeWhile (·.isDigit)
        if ds = [] then none else some (d4 ++ '-' :: ds)
      | _ => none
  else none

/-- `Sale Date:\s*([0-9]{2}/[0-9]{2}/[0-9]{4})` tried at the head. -/
def trySaleDateAt (s : Chars) : Option Chars :=
  if ciPrefixB ("sale date:".toList) s then
    let s2 := (s.drop 10).dropWhile isWS
    match takeDigits 2 s2 with
    | some (d1, '/' :: r1) =>
      match takeDigits 2 r1 with
      | some (d2, '/' :: r2) =>
        match takeDigits 4 r2 with
        | some (d3, _) => some (d1 ++ '/' :: (d2 ++ '/' :: d3))
        | none => none
      | _ => none
    | _ => none
  else none

/-- `(?:\s+Parcel:|\s+Min Bid:|\s+High Bid:|$)` — the terminator of the
status capture.  `$` is modelled as end of input: row texts are
`norm_ws`-normalised single lines without newlines. -/
def statusBoundary (s : Chars) : Bool :=
  s = [] ||
  ((s.takeWhile isWS) ≠ [] &&
    (ciPrefixB ("parcel:".toList) (s.dropWhile isWS) ||
     ciPrefixB ("min bid:".toList) (s.dropWhile isWS) ||
     ciPrefixB ("high bid:".toList) (s.dropWhile isWS)))

/-- `Status:\s*([A-Za-z ]+?)(?:\s+Parcel:|\s+Min Bid:|\s+High Bid:|$)`. -/
def tryStatusAt (s : Chars) : Option Chars :=
  if ciPrefixB ("status:".toList) s then
    tryWsStar (lazyClassCapture (fun c => c.isAlpha || c = ' ') statusBoundary)
      (s.drop 7)
  else none

/-- `Parcel:\s*([0-9A-Z\-]+)` under `re.I`. -/
def tryParcelAt (s : Chars) : Option Chars :=
  if ciPrefixB ("parcel:".toList) s then
    let s2 := (s.drop 7).dropWhile isWS
    let run := s2.takeWhile (fun c => c.isDigit || c.isAlpha || c = '-')
    if run = [] then none else some run
  else none

/-- `Min Bid:\s*\$?\s*([0-9,]+\.\d{2}|[0-9,]+)`. -/
def tryMinBidAt (s : Chars) : Option Chars :=
  if ciPrefixB ("min bid:".toList) s then
    let s2 := (s.drop 8).dropWhile isWS
    let s3 := match s2 with
      | '$' :: r => r.dropWhile isWS
      | _ => s2
    let run := s3.takeWhile (fun c => c.isDigit || c = ',')
    if run = [] then none
    else
      match s3.drop run.length with
      | '.' :: r2 =>
        let d2 := r2.take 2
        if d2.length == 2 && d2.all (·.isDigit) then some (run ++ '.' :: d2)
        else some run
      | _ => some run
  else none

/-- `(?:\s+Status:|$)` — the terminator of the applicant capture. -/
def applicantBoundary (s : Chars) : Bool :=
  s = [] ||
  ((s.takeWhile isWS) ≠ [] && ciPrefixB ("status:".toList) (s.dropWhile isWS))

/-- `Applicant Name:\s*(.+?)(?:\s+Status:|$)`; `.` is any character but a
newline. -/
def tryApplicantAt (s : Chars) : Option Chars :=
  if ciPrefixB ("applicant name:".toList) s then
    tryWsStar (lazyClassCapture (fun c => c ≠ '\n') applicantBoundary) (s.drop 15)
  else none

/-- The local helper `pick` of `parse_fields_from_row_text`:
`m.group(1).strip() if m else ""`. -/
def pick (tryAt : Chars → Option Chars) (txt : Chars) : Chars :=
  match scanFirst tryAt txt with
  | some v => trimChars v
  | none => []

structure ParsedFields where
  tax_sale_id : Chars
  sale_date : Chars
  deed_status : Chars
  parcel_number : Chars
  opening_bid : Chars
  applicant_name : Chars
deriving DecidableEq

/-- `parse_fields_from_row_text` (lines 263-284). -/
def parse_fields_from_row_text (row_text : Chars) : ParsedFields :=
  { tax_sale_id := pick tryTaxSaleAt row_text
    sale_date := pick trySaleDateAt row_text
    deed_status := pick tryStatusAt row_text
    parcel_number := pick tryParcelAt row_text
    opening_bid := pick tryMinBidAt row_text
    applicant_name := pick tryApplicantAt row_text }

/-- Segment combinators for structured auction rows: each labelled field,
when present, contributes its label, its value and one separating
space, in the table's canonical column order. -/
def segIf (b : Bool) (content : Chars) : Chars := if b then content else []

def segTS (b : Bool) (v : Chars) : Chars := segIf b ("Tax Sale ".toList ++ (v ++ [' ']))

def segSD (b : Bool) (v : Chars) : Chars := segIf b ("Sale Date: ".toList ++ (v ++ [' ']))

def segAN (b : Bool) (v : Chars) : Chars := segIf b ("Applicant Name: ".toList ++ (v ++ [' ']))

def segST (b : Bool) (v : Chars) : Chars := segIf b ("Status: ".toList ++ (v ++ [' ']))

def segPC (b : Bool) (v : Chars) : Chars := segIf b ("Parcel: ".toList ++ (v ++ [' ']))

def segMB (b : Bool) (v : Chars) : Chars := segIf b ("Min Bid: $".toList ++ (v ++ [' ']))

def rowText (bts bsd ban bst bpc bmb : Bool) (ts sd an st pc mb : Chars) : Chars :=
  segTS bts ts ++ (segSD bsd sd ++ (segAN ban an ++ (segST bst st ++ (segPC bpc pc ++ segMB bmb mb))))

/-- A well-formed tax-sale id: four digits, a dash, more digits. -/
def idVal (d4 ds : Chars) : Chars := d4 ++ '-' :: ds

/-- A well-formed sale date `dd/dd/dddd`. -/
def dateVal (m1 m2 n1 n2 y1 y2 y3 y4 : Char) : Chars :=
  [m1, m2, '/', n1, n2, '/', y1, y2, y3, y4]

/-- A well-formed minimum bid: digits and commas, optionally dot and two
decimal digits. -/
def bidVal (bdec : Bool) (ip : Chars) (da db : Char) : Chars :=
  if bdec then ip ++ '.' :: [da, db] else ip

def rowPre2 (bts bsd : Bool) (ts sd : Chars) : Chars := segTS bts ts ++ segSD bsd sd

def rowPre3 (bts bsd ban : Bool) (ts sd an : Chars) : Chars :=
  rowPre2 bts bsd ts sd ++ segAN ban an

def rowPre4 (bts bsd ban bst : Bool) (ts sd an st : Chars) : Chars :=
  rowPre3 bts bsd ban ts sd an ++ segST bst st

def rowPre5 (bts bsd ban bst bpc : Bool) (ts sd an st pc : Chars) : Chars :=
  rowPre4 bts bsd ban bst ts sd an st ++ segPC bpc pc

/-- Characters admitted by the city capture class `[A-Za-z .'-]`. -/
def cityClass (c : Char) : Bool :=
  c.isAlpha || c = ' ' || c = '.' || c = '\'' || c = '-'

/-- A successful match of the city pattern
`([A-Za-z .'-]+)\s*,\s*([A-Z]{2})\s*(\d{5}(?:-\d{4})?)` (under `re.I`):
the three captures plus the total matched length. -/
structure CityMatch where
  g1 : Chars
  g2 : Chars
  g3 : Chars
  matchedLen : Nat
deriving DecidableEq

/-- Stage 4 of the city pattern: after `\d{5}`, the greedy optional
`(?:-\d{4})?`. -/
def cityZip (run : Chars) (w1 w2 w3 : Nat) (st z5 r6 : Chars) : Option CityMatch :=
  match r6 with
  | '-' :: r7 =>
    if (r7.take 4).length == 4 && (r7.take 4).all (·.isDigit) then
      some ⟨run, st, z5 ++ '-' :: r7.take 4,
        run.length + w1 + 1 + w2 + 2 + w3 + 5 + 5⟩
    else some ⟨run, st, z5, run.length + w1 + 1 + w2 + 2 + w3 + 5⟩
  | _ => some ⟨run, st, z5, run.length + w1 + 1 + w2 + 2 + w3 + 5⟩

/-- Stage 3: after the state group, `\s*` then `\d{5}`. -/
def cityAfterState (run : Chars) (w1 w2 : Nat) (st r4 : Chars) : Option CityMatch :=
  if ((r4.drop (r4.takeWhile isWS).length).take 5).length == 5 &&
      ((r4.drop (r4.takeWhile isWS).length).take 5).all (·.isDigit) then
    cityZip run w1 w2 (r4.takeWhile isWS).length st
      ((r4.drop (r4.takeWhile isWS).length).take 5)
      ((r4.drop (r4.takeWhile isWS).length).drop 5)
  else none

/-- Stage 2: after the comma, `\s*` then `([A-Z]{2})` under `re.I`. -/
def cityAfterComma (run : Chars) (w1 : Nat) (r2 : Chars) : Option CityMatch :=
  if ((r2.drop (r2.takeWhile isWS).length).take 2).length == 2 &&
      ((r2.drop (r2.takeWhile isWS).length).take 2).all (·.isAlpha) then
    cityAfterState run w1 (r2.takeWhile isWS).length
      ((r2.drop (r2.takeWhile isWS).length).take 2)
      ((r2.drop (r2.takeWhile isWS).length).drop 2)
  else none

/-- Stage 1: after the greedy class capture, `\s*` then the comma. -/
def cityAfterRun (run r1 : Chars) : Option CityMatch :=
  match r1.drop (r1.takeWhile isWS).length with
  | ',' :: r2 => cityAfterComma run (r1.takeWhile isWS).length r2
  | _ => none

/-- The city pattern tried at the head of `s`. -/
def tryCityAt (s : Chars) : Option CityMatch :=
  if s.takeWhile cityClass = [] then none
  else cityAfterRun (s.takeWhile cityClass) (s.drop (s.takeWhile cityClass).length)

/-- Python `str.splitlines` (ASCII boundaries).  The flag records that
the previous character was `\r`, so that `\r\n` counts as one boundary;
a possible extra empty line at the end is immaterial here because the
only caller filters empty lines away. -/
def splitLinesAux : Chars → Chars → Bool → List Chars
  | [], acc, _ => [acc.reverse]
  | c :: rest, acc, afterCR =>
    if c = '\r' then acc.reverse :: splitLinesAux rest [] true
    else if c = '\n' then
      if afterCR then splitLinesAux rest acc false
      else acc.reverse :: splitLinesAux rest [] false
    else if c = '\x0b' || c = '\x0c' then
      acc.reverse :: splitLinesAux rest [] false
    else splitLinesAux rest (c :: acc) false

def splitLines (s : Chars) : List Chars := splitLinesAux s [] false

/-- `_extract_street_before_city` (lines 350-353): the last non-empty
stripped line before the city match. -/
def _extract_street_before_city (block : Chars) (cityStart : Nat) : Option Chars :=
  let lines := ((splitLines (block.take cityStart)).map trimChars).filter
    (fun l => l ≠ [])
  lines.getLast?

/-- Python `str.title` over ASCII. -/
def titleCaseAux : Bool → Chars → Chars
  | _, [] => []
  | prevAlpha, c :: rest =>
    if c.isAlpha then
      (if prevAlpha then c.toLower else c.toUpper) :: titleCaseAux true rest
    else c :: titleCaseAux false rest

def titleCase (s : Chars) : Chars := titleCaseAux false s

/-- Case-insensitive literal. -/
def ciLit (w : Chars) (s : Chars) : Option Chars :=
  if ciPrefixB w s then some (s.drop w.length) else none

/-- `\s+`. -/
def wsPlus (s : Chars) : Option Chars :=
  if (s.takeWhile isWS) = [] then none else some (s.dropWhile isWS)

/-- A marker regex body: literal words separated by `\s+`. -/
def tryWords : List Chars → Chars → Option Chars
  | [], s => some s
  | [w], s => ciLit w s
  | w :: ws, s =>
    match ciLit w s with
    | none => none
    | some r =>
      match wsPlus r with
      | none => none
      | some r2 => tryWords ws r2

/-- The marker tail `\s*[:\-]?`; returns the text after `mm.end()`. -/
def markerTail (s : Chars) : Chars :=
  match s.dropWhile isWS with
  | ':' :: rest => rest
  | '-' :: rest => rest
  | r => r

def onRecordWords : List Chars :=
  ["address".toList, "on".toList, "record".toList, "on".toList,
   "current".toList, "tax".toList, "roll".toList]

def physicalWords : List Chars := ["physical".toList, "address".toList]

def titleHolderWords : List Chars :=
  ["title".toList, "holder".toList, "and".toList, "address".toList,
   "of".toList, "record".toList]

structure AddressResolution where
  address : Option Chars
  city : Option Chars
  state : Option Chars
  zip : Option Chars
  marker_used : Option String
  marker_found : Bool
  snippet : Chars
deriving DecidableEq

def emptyResolution (snippet : Chars) : AddressResolution :=
  ⟨none, none, none, none, none, false, snippet⟩

/-- One iteration of the marker loop in `parse_best_address_from_text`
(lines 369-388): `none` means the loop `continue`s to the next marker. -/
def marker_attempt (name : String) (words : List Chars) (text : Chars) :
    Option AddressResolution :=
  match scanFirst (fun s => (tryWords words s).map markerTail) text with
  | none => none
  | some afterRaw =>
    let after := trimChars afterRaw
    match scanFirstIdx tryCityAt after with
    | none => none
    | some (idx, cm) =>
      some
        { address := _extract_street_before_city after idx
          city := some (trimChars (titleCase cm.g1))
          state := some (cm.g2.map Char.toUpper)
          zip := some cm.g3
          marker_used := some name
          marker_found := true
          snippet := after.take 700 }

/-- `parse_best_address_from_text` (lines 356-407). -/
def parse_best_address_from_text (text : Chars) : AddressResolution :=
  if text = [] then emptyResolution []
  else
    match marker_attempt "ADDRESS_ON_RECORD" onRecordWords text with
    | some r => r
    | none =>
      match marker_attempt "PHYSICAL_ADDRESS" physicalWords text with
      | some r => r
      | none =>
        match marker_attempt "TITLE_HOLDER_ADDRESS" titleHolderWords text with
        | some r => r
        | none =>
          match scanFirstIdx tryCityAt text with
          | none => emptyResolution (text.take 900)
          | some (idx, cm) =>
            { address := _extract_street_before_city text idx
              city := some (trimChars (titleCase cm.g1))
              state := some (cm.g2.map Char.toUpper)
              zip := some cm.g3
              marker_used := some "FALLBACK_FIRST_MATCH"
              marker_found := true
              snippet :=
                (text.drop (idx - 250)).take
                  (idx + cm.matchedLen + 250 - (idx - 250)) }

/-- Environment-derived configuration (lines 24-54) with the literal
defaults of the corresponding `os.getenv` calls; `SEND_TO_APP` defaults
to false because `APP_API_BASE`/`APP_API_TOKEN` default to empty. -/
structure Config where
  maxViewerRetries : Nat := 3
  ocrMaxPages : Nat := 3
  skipIfAddressNotNumbered : Bool := true
  sendToApp : Bool := false
  startAfterLastNode : Bool := true
  maxLots : Nat := 100

def defaultConfig : Config := {}

/-- Everything external that can influence one iteration of the per-lot
loop of `run()` (lines 561-723). -/
structure LotEnv where
  challenge : Nat → Bool     -- attempt number ↦ lands on checkHuman.jsp
  pdfHrefFound : Bool        -- a Property_Information.pdf link exists
  pdfDownloadOk : Bool       -- the PDF GET returned 2xx
  pdfIsPdf : Bool            -- content-type is a PDF type
  pdfPages : List PdfPage    -- the document's pages
  nativeRaises : Bool        -- pdfplumber raised (caught, yields "")
  ocrRaises : Bool           -- ocr_pdf_bytes raised
  ingest : Nat → HttpResult  -- attempt number ↦ outcome of POST /api/ingest
  stateWriteOk : Bool        -- set_state_last_node succeeded

inductive LotOutcome where
  | skippedChallenge       -- blocked by checkHuman.jsp after retries
  | skippedNoPdfLink
  | skippedDownloadFailed
  | skippedNotPdf
  | skippedNotNumbered     -- address filter rejected the street line
  | processed (ingestOk : Bool)
deriving DecidableEq

/-- Observable behaviour of one loop iteration. -/
structure LotResult where
  outcome : LotOutcome
  viewer : ViewerOut
  ocrRun : Bool
  ocrPagesProcessed : Option Nat  -- `none` when OCR raised
  textUsed : Chars
  addr : Option AddressResolution -- `none` when skipped before extraction
  post : PostResult
  stateWriteAttempted : Bool
  stateWritten : Bool

/-- Lines 632-647: the text used for address extraction, whether OCR was
run, and how many pages it processed (`none` when OCR raised). -/
def lot_text_acq (cfg : Config) (env : LotEnv) : Chars × Bool × Option Nat :=
  let nativeText := if env.nativeRaises then [] else try_pdfplumber_text env.pdfPages
  if nativeText ≠ [] then (nativeText, false, some 0)
  else if env.ocrRaises then ([], true, none)
  else
    let o := ocr_pdf_bytes env.pdfPages cfg.ocrMaxPages
    (o.1, true, some o.2)

/-- The address resolution the loop works with: the literal default dict
when OCR raised, otherwise `parse_best_address_from_text` on the
acquired text. -/
def lot_addr (cfg : Config) (env : LotEnv) : AddressResolution :=
  if (lot_text_acq cfg env).2.1 && env.ocrRaises then emptyResolution []
  else parse_best_address_from_text (lot_text_acq cfg env).1

/-- One iteration of the `for idx, lot in enumerate(selected, ...)` loop
(lines 561-723), with every `continue` branch made explicit. -/
def process_lot (cfg : Config) (env : LotEnv) : LotResult :=
  let v := open_viewer_with_retry env.challenge cfg.maxViewerRetries
  if v.blocked then
    ⟨.skippedChallenge, v, false, some 0, [], none, ⟨false, 0, []⟩, false, false⟩
  else if !env.pdfHrefFound then
    ⟨.skippedNoPdfLink, v, false, some 0, [], none, ⟨false, 0, []⟩, false, false⟩
  else if !env.pdfDownloadOk then
    ⟨.skippedDownloadFailed, v, false, some 0, [], none, ⟨false, 0, []⟩, false, false⟩
  else if !env.pdfIsPdf then
    ⟨.skippedNotPdf, v, false, some 0, [], none, ⟨false, 0, []⟩, false, false⟩
  else
    let acq := lot_text_acq cfg env
    let addr := lot_addr cfg env
    if cfg.skipIfAddressNotNumbered && !is_numbered_street_address addr.address then
      ⟨.skippedNotNumbered, v, acq.2.1, acq.2.2, acq.1, some addr,
        ⟨false, 0, []⟩, false, false⟩
    else
      let post :=
        if cfg.sendToApp then post_to_app cfg.sendToApp env.ingest
        else ⟨false, 0, []⟩
      let ingestOk := if cfg.sendToApp then post.ok else true
      ⟨.processed ingestOk, v, acq.2.1, acq.2.2, acq.1, some addr, post,
        ingestOk, ingestOk && env.stateWriteOk⟩

/-- The whole batch loop: strictly sequential, one result per selected
lot, no iteration aborts the ones after it. -/
def run_batch (cfg : Config) (batch : List (Lot × LotEnv)) :
    List (Lot × LotResult) :=
  batch.map (fun p => (p.1, process_lot cfg p.2))

/-- The checkpoint value after the batch: `set_state_last_node(node)` is
called exactly for ingest-ok records, and the stored value advances when
the write succeeds. -/
def checkpoint_after (cfg : Config) (init : Option String)
    (batch : List (Lot × LotEnv)) : Option String :=
  batch.foldl
    (fun st p =>
      let r := process_lot cfg p.2
      if r.stateWritten then some p.1.node else st)
    init

/-- The nodes whose records the run attempts to checkpoint, in order:
exactly those whose iteration ended with `ingest_ok` true. -/
def ingestedNodes (cfg : Config) (batch : List (Lot × LotEnv)) : List String :=
  (batch.filter (fun p => (process_lot cfg p.2).stateWriteAttempted)).map
    (fun p => p.1.node)

/-- A well-formed address block as it appears in the source documents:
a street line, then a `City, ST ZIP` line, then `rest`. -/
def addressBlock (street city st zp rest : Chars) : Chars :=
  '\n' :: (street ++ ('\n' :: (city ++ (',' :: ' ' :: (st ++ (' ' :: (zp ++ rest)))))))

/-- A title-holder block (lowest-priority marker followed by its
address block). -/
def titleBlockText (street city st zp : Chars) : Chars :=
  "TITLE HOLDER AND ADDRESS OF RECORD:".toList ++ addressBlock street city st zp []

/-- A document carrying a physical-address block followed by a
title-holder block. -/
def physThenTitleText
    (pre street1 city1 st1 zip1 mid street2 city2 st2 zip2 : Chars) : Chars :=
  pre ++ ("PHYSICAL ADDRESS:".toList ++
    addressBlock street1 city1 st1 zip1
      ('\n' :: (mid ++ titleBlockText street2 city2 st2 zip2)))

/-! ### Concrete data used by witnesses and counterexamples -/

/-- Ingestion enabled, numbered-address requirement off. -/
def cfgNoFilter : Config := { skipIfAddressNotNumbered := false, sendToApp := true }

/-- Ingestion enabled, all other knobs at their defaults. -/
def cfgSend : Config := { sendToApp := true }

def lotA : Lot := ⟨"nodeA", "urlA", []⟩
def lotB : Lot := ⟨"nodeB", "urlB", []⟩
def lotC : Lot := ⟨"nodeC", "urlC", []⟩

/-- A page whose native text carries a well-formed physical-address block. -/
def pageGood : PdfPage :=
  ⟨"PHYSICAL ADDRESS:\n407 Dill Rd\nORLANDO, FL 32801".toList, []⟩

/-- Environment for a lot that sails through every stage. -/
def envGood : LotEnv :=
  { challenge := fun _ => false
    pdfHrefFound := true
    pdfDownloadOk := true
    pdfIsPdf := true
    pdfPages := [pageGood]
    nativeRaises := false
    ocrRaises := false
    ingest := fun _ => .ok
    stateWriteOk := true }

/-- Same pipeline position but the ingestion backend answers 401. -/
def env401 : LotEnv := { envGood with ingest := fun _ => .unauthorized }

/-- Every viewer attempt lands on the challenge page. -/
def envBlocked : LotEnv := { envGood with challenge := fun _ => true }

/-- Ingestion fails with retryable errors on every attempt. -/
def envIngestFail : LotEnv := { envGood with ingest := fun _ => .httpErr }

/-- A scanned document: no native text, OCR text on the first page. -/
def envScan : LotEnv :=
  { envGood with
    pdfPages :=
      [⟨[], "PHYSICAL ADDRESS:\n407 Dill Rd\nORLANDO, FL 32801".toList⟩,
       ⟨[], "ignored".toList⟩] }

/-- A document that yields no text at all, natively or by OCR. -/
def envNoText : LotEnv := { envGood with pdfPages := [⟨[], []⟩, ⟨[], []⟩] }

/-! ## General helper lemmas -/

theorem scanFirst_append_none (f : Chars → Option α) (a b : Chars)
    (h : ∀ n, n < a.length → f (a.drop n ++ b) = none) :
    scanFirst f (a ++ b) = scanFirst f b := by
  induction a with
  | nil => rfl
  | cons c a ih =>
    have h0 : f (c :: (a ++ b)) = none := by
      have := h 0 (by simp)
      simpa using this
    rw [List.cons_append, scanFirst, h0]
    exact ih fun n hn => by
      have := h (n + 1) (by simpa using Nat.succ_lt_succ hn)
      simpa using this

theorem scanFirstIdx_append_none (f : Chars → Option α) (a b : Chars)
    (h : ∀ n, n < a.length → f (a.drop n ++ b) = none) :
    scanFirstIdx f (a ++ b) =
      (scanFirstIdx f b).map (fun p => (p.1 + a.length, p.2)) := by
  induction a with
  | nil =>
    simp only [List.nil_append, List.length_nil]
    cases scanFirstIdx f b <;> rfl
  | cons c a ih =>
    have h0 : f (c :: (a ++ b)) = none := by
      have := h 0 (by simp)
      simpa using this
    rw [List.cons_append, scanFirstIdx, h0]
    rw [ih fun n hn => by
      have := h (n + 1) (by simpa using Nat.succ_lt_succ hn)
      simpa using this]
    cases scanFirstIdx f b with
    | none => rfl
    | some p => simp; omega

theorem takeWhile_append_all (p : Char → Bool) (a b : Chars)
    (h : ∀ c ∈ a, p c = true) :
    (a ++ b).takeWhile p = a ++ b.takeWhile p := by
  induction a with
  | nil => rfl
  | cons c a ih =>
    have hc := h c (by simp)
    simp only [List.cons_append, List.takeWhile_cons, hc, if_true]
    rw [ih fun d hd => h d (by simp [hd])]

theorem dropWhile_append_all (p : Char → Bool) (a b : Chars)
    (h : ∀ c ∈ a, p c = true) :
    (a ++ b).dropWhile p = b.dropWhile p := by
  induction a with
  | nil => rfl
  | cons c a ih =>
    have hc := h c (by simp)
    simp only [List.cons_append, List.dropWhile_cons, hc, if_true]
    exact ih fun d hd => h d (by simp [hd])

theorem takeWhile_append_stop (p : Char → Bool) (a b : Chars)
    (h : a.dropWhile p ≠ []) :
    (a ++ b).takeWhile p = a.takeWhile p := by
  induction a with
  | nil => simp at h
  | cons c a ih =>
    by_cases hc : p c = true
    · simp only [List.dropWhile_cons, hc, if_true] at h
      simp only [List.cons_append, List.takeWhile_cons, hc, if_true]
      rw [ih h]
    · have hc' : p c = false := by simpa using hc
      simp [List.takeWhile_cons, hc']

theorem dropWhile_append_stop (p : Char → Bool) (a b : Chars)
    (h : a.dropWhile p ≠ []) :
    (a ++ b).dropWhile p = a.dropWhile p ++ b := by
  induction a with
  | nil => simp at h
  | cons c a ih =>
    by_cases hc : p c = true
    · simp only [List.dropWhile_cons, hc, if_true] at h
      simp only [List.cons_append, List.dropWhile_cons, hc, if_true]
      exact ih h
    · have hc' : p c = false := by simpa using hc
      simp [List.dropWhile_cons, hc']

theorem dropWhile_eq_self_of_head (p : Char → Bool) (l : Chars)
    (h : ∀ c, l.head? = some c → p c = false) :
    l.dropWhile p = l := by
  cases l with
  | nil => rfl
  | cons c t => simp [List.dropWhile_cons, h c rfl]

theorem trimChars_eq_self (l : Chars)
    (h1 : ∀ c, l.head? = some c → isWS c = false)
    (h2 : ∀ c, l.getLast? = some c → isWS c = false) :
    trimChars l = l := by
  unfold trimChars
  rw [dropWhile_eq_self_of_head _ _ h1]
  rw [dropWhile_eq_self_of_head _ _ (fun c hc => h2 c (by
    rw [List.getLast?_eq_head?_reverse]; exact hc))]
  exact List.reverse_reverse l

/-! ## C1: checkpoint resume -/

theorem findIdx?_node_aux (ln : String) :
    ∀ (lots : List Lot) (k i : Nat), (lots.map Lot.node).Nodup →
      (lots.map Lot.node)[k]? = some ln →
      List.findIdx? (fun l => l.node == ln) lots i = some (i + k)
  | [], k, i, _, hk => by simp at hk
  | a :: t, k, i, hnd, hk => by
    rw [List.findIdx?_cons]
    simp only [List.map_cons, List.nodup_cons] at hnd
    cases k with
    | zero =>
      simp only [List.map_cons, List.getElem?_cons_zero, Option.some.injEq] at hk
      simp [hk]
    | succ j =>
      simp only [List.map_cons, List.getElem?_cons_succ] at hk
      have hmem : ln ∈ t.map Lot.node := List.getElem?_mem hk
      have hne : (a.node == ln) = false := by
        by_cases he : a.node = ln
        · exact absurd (he ▸ hmem) hnd.1
        · simpa using he
      rw [hne]
      simp only [Bool.false_eq_true, if_false]
      rw [findIdx?_node_aux ln t j (i + 1) hnd.2 hk]
      congr 1
      omega

/-- C1.  Checkpoint resume: with resume enabled and a recorded
`last_node`, a freshly fetched lot list whose position `k` holds that
node is cut to the lots after position `k`; if the node is absent the
list is left whole (processing starts at position 0). -/
theorem checkpoint_resume (lots : List Lot) (ln : String) (k : Nat)
    (hln : ln ≠ "") :
    ((lots.map Lot.node).Nodup → (lots.map Lot.node)[k]? = some ln →
      resume_lots true (some ln) lots = lots.drop (k + 1)) ∧
    ((∀ l ∈ lots, l.node ≠ ln) → resume_lots true (some ln) lots = lots) := by
  constructor
  · intro hnd hk
    show (if ln = "" then lots else _) = _
    rw [if_neg hln]
    rw [show List.findIdx? (fun l => l.node == ln) lots = some (0 + k) from
      findIdx?_node_aux ln lots k 0 hnd hk]
    simp
  · intro habs
    show (if ln = "" then lots else _) = _
    rw [if_neg hln]
    rw [List.findIdx?_eq_none_iff.mpr (fun l hl => by simpa using habs l hl)]

/-- C1 witness: resume after `nodeB` in `[A, B, C]` keeps only `C`;
resume after an absent node keeps the whole list. -/
theorem checkpoint_resume_witness :
    resume_lots true (some "nodeB") [lotA, lotB, lotC] = [lotC] ∧
    resume_lots true (some "nodeZ") [lotA, lotB, lotC] = [lotA, lotB, lotC] := by
  constructor
  · exact (checkpoint_resume [lotA, lotB, lotC] "nodeB" 1 (by decide)).1
      (by decide) (by decide)
  · exact (checkpoint_resume [lotA, lotB, lotC] "nodeZ" 0 (by decide)).2
      (by decide)

/-! ## C5: money normalization -/

theorem isWS_elim {c : Char} (h : isWS c = true) :
    c = ' ' ∨ c = '\t' ∨ c = '\n' ∨ c = '\r' ∨ c = '\x0b' ∨ c = '\x0c' := by
  unfold isWS at h
  simp only [Bool.or_eq_true, decide_eq_true_eq] at h
  tauto

theorem isDigit_not_isWS {c : Char} (h : c.isDigit = true) : isWS c = false := by
  by_contra hws
  rcases isWS_elim (by simpa using hws) with rfl | rfl | rfl | rfl | rfl | rfl <;>
    exact absurd h (by decide)

theorem isDigit_ne_comma {c : Char} (h : c.isDigit = true) : c ≠ ',' := by
  rintro rfl; exact absurd h (by decide)

theorem isDigit_ne_dot {c : Char} (h : c.isDigit = true) : c ≠ '.' := by
  rintro rfl; exact absurd h (by decide)

theorem trimChars_eq_self_of_all (l : Chars) (h : ∀ c ∈ l, isWS c = false) :
    trimChars l = l := by
  refine trimChars_eq_self l (fun c hc => ?_) (fun c hc => ?_)
  · cases l with
    | nil => simp at hc
    | cons a t =>
      simp only [List.head?_cons, Option.some.injEq] at hc
      exact hc ▸ h a (by simp)
  · have hm : c ∈ l := by
      rw [List.getLast?_eq_head?_reverse] at hc
      cases hrev : l.reverse with
      | nil => rw [hrev] at hc; simp at hc
      | cons a t =>
        rw [hrev] at hc
        simp only [List.head?_cons, Option.some.injEq] at hc
        have : c ∈ l.reverse := by rw [hrev, hc]; simp
        simpa using this
    exact h c hm

/-- C5.  Money normalization over the captures the min-bid pattern can
produce (`[0-9,]+` optionally followed by `.` and two digits):
`None`/empty input is absent, `"$3,432.29"` becomes `"3432.29"`,
thousands separators are stripped, the output holds only digits and at
most one decimal point, and a capture with no digits and no fraction
(only commas) is absent — never zero. -/
theorem money_normalization (ip fr : Chars) (hip : ip ≠ [])
    (hipc : ∀ c ∈ ip, c.isDigit = true ∨ c = ',')
    (hfr : fr = [] ∨ ∃ d1 d2, d1.isDigit = true ∧ d2.isDigit = true ∧
      fr = ['.', d1, d2]) :
    (normalize_bid_for_payload none = none) ∧
    (normalize_bid_for_payload (some []) = none) ∧
    (normalize_bid_for_payload (some ("$3,432.29".toList)) =
      some ("3432.29".toList)) ∧
    ((∃ c ∈ ip, c.isDigit = true) ∨ fr ≠ [] →
      normalize_bid_for_payload (some (ip ++ fr)) =
        some ((ip ++ fr).filter (fun c => c ≠ ','))) ∧
    ((∀ c ∈ ip, c = ',') → fr = [] →
      normalize_bid_for_payload (some (ip ++ fr)) = none) ∧
    (∀ t, normalize_bid_for_payload (some (ip ++ fr)) = some t →
      (∀ c ∈ t, c.isDigit = true ∨ c = '.') ∧ t.count '.' ≤ 1) := by
  have hsc : ∀ c ∈ ip ++ fr, c.isDigit = true ∨ c = ',' ∨ c = '.' := by
    intro c hc
    rcases List.mem_append.mp hc with h | h
    · rcases hipc c h with h' | h'
      · exact Or.inl h'
      · exact Or.inr (Or.inl h')
    · rcases hfr with rfl | ⟨d1, d2, hd1, hd2, rfl⟩
      · simp at h
      · simp only [List.mem_cons, List.not_mem_nil, or_false] at h
        rcases h with rfl | rfl | rfl
        · exact Or.inr (Or.inr rfl)
        · exact Or.inl hd1
        · exact Or.inl hd2
  have hnws : ∀ c ∈ ip ++ fr, isWS c = false := by
    intro c hc
    rcases hsc c hc with h | h | h
    · exact isDigit_not_isWS h
    · subst h; decide
    · subst h; decide
  have htrim : trimChars (ip ++ fr) = ip ++ fr :=
    trimChars_eq_self_of_all _ hnws
  have hne : ip ++ fr ≠ [] := by
    intro h
    exact hip (List.append_eq_nil.mp h).1
  have hsecond :
      ((ip ++ fr).filter (fun c => c ≠ ',')).filter
        (fun c => c.isDigit || c = '.') =
      (ip ++ fr).filter (fun c => c ≠ ',') := by
    rw [List.filter_eq_self]
    intro c hc
    have hm := List.mem_filter.mp hc
    rcases hsc c hm.1 with h | h | h
    · simp [h]
    · exact absurd (by simpa using h) (by simpa using hm.2)
    · simp [h]
  have hnorm : normalize_bid_for_payload (some (ip ++ fr)) =
      (if (ip ++ fr).filter (fun c => c ≠ ',') = [] then none
       else some ((ip ++ fr).filter (fun c => c ≠ ','))) := by
    simp only [normalize_bid_for_payload, htrim, if_neg hne, hsecond]
  refine ⟨rfl, by decide, by decide, ?_, ?_, ?_⟩
  · intro hd
    have hfil : (ip ++ fr).filter (fun c => c ≠ ',') ≠ [] := by
      rcases hd with ⟨c, hc, hdig⟩ | hfne
      · exact List.ne_nil_of_mem (List.mem_filter.mpr
          ⟨List.mem_append.mpr (Or.inl hc), by simpa using isDigit_ne_comma hdig⟩)
      · rcases hfr with rfl | ⟨d1, d2, hd1, hd2, rfl⟩
        · exact absurd rfl hfne
        · exact @List.ne_nil_of_mem _ '.' _ (List.mem_filter.mpr
            ⟨List.mem_append.mpr (Or.inr (by simp)), by decide⟩)
    rw [hnorm, if_neg hfil]
  · intro hcomma hfe
    subst hfe
    have : (ip ++ []).filter (fun c => c ≠ ',') = [] := by
      rw [List.filter_eq_nil_iff]
      intro c hc
      have := hcomma c (by simpa using hc)
      simp [this]
    rw [hnorm, this]
    simp
  · intro t ht
    rw [hnorm] at ht
    by_cases hfil : (ip ++ fr).filter (fun c => c ≠ ',') = []
    · rw [if_pos hfil] at ht; exact absurd ht (by simp)
    · rw [if_neg hfil] at ht
      have htv : t = (ip ++ fr).filter (fun c => c ≠ ',') := by
        exact (Option.some.injEq _ _ ▸ ht.symm)
      subst htv
      constructor
      · intro c hc
        have hm := List.mem_filter.mp hc
        rcases hsc c hm.1 with h | h | h
        · exact Or.inl h
        · exact absurd (by simpa using h) (by simpa using hm.2)
        · exact Or.inr h
      · calc ((ip ++ fr).filter (fun c => c ≠ ',')).count '.'
            ≤ (ip ++ fr).count '.' := (List.filter_sublist _).count_le '.'
          _ = ip.count '.' + fr.count '.' := List.count_append '.' ip fr
          _ ≤ 0 + 1 := by
              have h1 : ip.count '.' = 0 := by
                rw [List.count_eq_zero]
                intro hm
                rcases hipc '.' hm with h | h
                · exact absurd h (by decide)
                · exact absurd h (by decide)
              have h2 : fr.count '.' ≤ 1 := by
                rcases hfr with rfl | ⟨d1, d2, hd1, hd2, rfl⟩
                · simp
                · simp [List.count_cons, isDigit_ne_dot hd1, isDigit_ne_dot hd2,
                    List.count_nil]
              omega
          _ ≤ 1 := by omega

/-- C5 witness: the theorem applied to the capture `"3,432.29"`
(integer part `"3,432"`, fraction `".29"`). -/
theorem money_normalization_witness :
    normalize_bid_for_payload (some ("3,432.29".toList)) =
      some ("3432.29".toList) := by
  have h := (money_normalization ("3,432".toList) (".29".toList)
    (by decide) (by decide)
    (Or.inr ⟨'2', '9', by decide, by decide, by decide⟩)).2.2.2.1
    (Or.inl ⟨'3', by decide, by decide⟩)
  simpa using h

/-! ## C8: numbered-address filter -/

theorem isWS_not_isDigit {c : Char} (h : isWS c = true) : c.isDigit = false := by
  by_contra hd
  rw [isDigit_not_isWS (by simpa using hd)] at h
  exact Bool.false_ne_true h

/-- C8 counterexample: `"1234567 Main St"` begins with a numeric house
number followed by more text, yet the filter rejects it, because the
regex `^\d{1,6}\s+\S` bounds the house number to six digits. -/
theorem numbered_filter_counterexample :
    is_numbered_street_address (some ("1234567 Main St".toList)) = false := by
  decide

/-- C8 (amended).  The filter accepts every street line whose stripped
form begins with a house number of one to six digits followed by
whitespace and a further non-whitespace character; it rejects every
line whose stripped form does not begin with a digit (street-only
lines) as well as an absent address; and with the numbered-address
requirement enabled, a record whose resolved street line the filter
rejects is skipped and never sent to the ingestion backend. -/
theorem numbered_address_filter (a ds ws tl : Chars) (c : Char) :
    (trimChars a = ds ++ ws ++ c :: tl →
      1 ≤ ds.length → ds.length ≤ 6 → (∀ d ∈ ds, d.isDigit = true) →
      ws ≠ [] → (∀ d ∈ ws, isWS d = true) → isWS c = false →
      is_numbered_street_address (some a) = true) ∧
    (∀ c0, (trimChars a).head? = some c0 → c0.isDigit = false →
      is_numbered_street_address (some a) = false) ∧
    (is_numbered_street_address none = false) ∧
    (∀ cfg env,
      cfg.skipIfAddressNotNumbered = true →
      is_numbered_street_address (lot_addr cfg env).address = false →
      (open_viewer_with_retry env.challenge cfg.maxViewerRetries).blocked = false →
      env.pdfHrefFound = true → env.pdfDownloadOk = true → env.pdfIsPdf = true →
      (process_lot cfg env).outcome = .skippedNotNumbered ∧
        (process_lot cfg env).post.attempts = 0) := by
  refine ⟨?_, ?_, rfl, ?_⟩
  · intro htr h1 h6 hdig hws hwsall hc
    have hane : a ≠ [] := by
      intro h
      rw [h] at htr
      have : ([] : Chars) = ds ++ ws ++ c :: tl := htr
      exact absurd this.symm (by simp)
    show (if a = [] then false else _) = true
    rw [if_neg hane]
    have hwhead : ∀ d, (ws ++ c :: tl).head? = some d → d.isDigit = false := by
      intro d hd
      cases ws with
      | nil => exact absurd rfl hws
      | cons w ws' =>
        simp only [List.cons_append, List.head?_cons, Option.some.injEq] at hd
        rw [← hd]
        exact isWS_not_isDigit (hwsall w (by simp))
    have htake : (trimChars a).takeWhile (·.isDigit) = ds := by
      rw [htr, List.append_assoc, takeWhile_append_all _ _ _ hdig]
      cases hcase : ws ++ c :: tl with
      | nil => exact absurd hcase (by simp)
      | cons d r =>
        rw [List.takeWhile_cons, hwhead d (by rw [hcase]; rfl)]
        simp
    have hdrop : (trimChars a).dropWhile (·.isDigit) = ws ++ c :: tl := by
      rw [htr, List.append_assoc, dropWhile_append_all _ _ _ hdig]
      exact dropWhile_eq_self_of_head _ _ (fun d hd => by simp [hwhead d hd])
    have hdw : (ws ++ c :: tl).dropWhile isWS = c :: tl := by
      rw [dropWhile_append_all _ _ _ (fun d hd => hwsall d hd)]
      exact dropWhile_eq_self_of_head _ _ (fun d hd => by
        simp only [List.head?_cons, Option.some.injEq] at hd
        rw [hd] at hc; exact hc)
    simp only [htake, hdrop, hdw]
    have hwlen : 0 < ws.length := List.length_pos.mpr hws
    simp only [Bool.and_eq_true, decide_eq_true_eq, List.isEmpty_cons,
      Bool.not_false, List.length_append, List.length_cons]
    exact ⟨⟨⟨h1, h6⟩, by omega⟩, trivial⟩
  · intro c0 hh hc0
    by_cases hane : a = []
    · subst hane; rfl
    · show (if a = [] then false else _) = false
      rw [if_neg hane]
      cases htc : trimChars a with
      | nil => rw [htc] at hh; simp at hh
      | cons d r =>
        rw [htc] at hh
        simp only [List.head?_cons, Option.some.injEq] at hh
        subst hh
        simp [htc, List.takeWhile_cons, hc0]
  · intro cfg env hskip hnum hblocked hhref hdl hispdf
    unfold process_lot
    simp [hblocked, hhref, hdl, hispdf, hskip, hnum]

/-- C8 witness: `"123 Main St"` accepted, `"Main St"` and `"Dill Rd"`
rejected, and a lot with no usable address is skipped before ingestion
under the default configuration. -/
theorem numbered_address_filter_witness :
    is_numbered_street_address (some ("123 Main St".toList)) = true ∧
    is_numbered_street_address (some ("Main St".toList)) = false ∧
    is_numbered_street_address (some ("Dill Rd".toList)) = false ∧
    (process_lot defaultConfig envNoText).outcome = .skippedNotNumbered := by
  refine ⟨?_, ?_, ?_, ?_⟩
  · exact (numbered_address_filter ("123 Main St".toList) ("123".toList)
      ([' ']) ("ain St".toList) 'M').1 (by decide) (by decide) (by decide)
      (by decide) (by decide) (by decide) (by decide)
  · exact (numbered_address_filter ("Main St".toList) [] [] [] ' ').2.1 'M'
      (by decide) (by decide)
  · exact (numbered_address_filter ("Dill Rd".toList) [] [] [] ' ').2.1 'D'
      (by decide) (by decide)
  · exact ((numbered_address_filter [] [] [] [] ' ').2.2.2 defaultConfig
      envNoText rfl (by decide) (by decide) rfl rfl rfl).1

/-! ## C2: ingestion retry and 401 handling -/

theorem post_loop_attempts_le (resp : Nat → HttpResult) :
    ∀ r a, (post_loop resp a r).attempts ≤ r := by
  intro r
  induction r with
  | zero => intro a; simp [post_loop]
  | succ n ih =>
    intro a
    cases h : resp a <;> simp [post_loop, h]
    · exact ih (a + 1)
    · exact ih (a + 1)

/-- C2 counterexample: in a two-record batch whose first record's ingest
answers 401, the second record is still fully processed and ingested —
a 401 does not abort the remaining batch. -/
theorem ingest_401_counterexample :
    (run_batch cfgNoFilter [(lotA, env401), (lotB, envGood)]).map
        (fun p => (p.1.node, p.2.outcome)) =
      [("nodeA", .processed false), ("nodeB", .processed true)] := by
  decide

/-- C2 (amended).  `post_to_app` issues at most three POSTs; when every
attempt fails retryably it sleeps 1 s, 2 s, 3 s between and after
attempts (linear backoff); a 401 at attempt `k` stops immediately — no
further attempt and no backoff sleep after it — and yields a failed
ingest; and the batch loop still processes every remaining record
independently, the 401 only costing the failed record its checkpoint
advance. -/
theorem ingest_retry_behavior :
    (∀ resp, (post_to_app true resp).attempts ≤ 3) ∧
    (∀ resp, (∀ a, 1 ≤ a → a ≤ 3 → resp a = .httpErr ∨ resp a = .exn) →
      post_to_app true resp = ⟨false, 3, [1, 2, 3]⟩) ∧
    (∀ resp k, 1 ≤ k → k ≤ 3 → resp k = .unauthorized →
      (∀ j, 1 ≤ j → j < k → resp j = .httpErr ∨ resp j = .exn) →
      post_to_app true resp = ⟨false, k, (List.range (k - 1)).map (· + 1)⟩) ∧
    (∀ (cfg : Config) (batch : List (Lot × LotEnv)) (i : Nat),
      (run_batch cfg batch)[i]? =
        (batch[i]?).map (fun p => (p.1, process_lot cfg p.2))) := by
  refine ⟨?_, ?_, ?_, ?_⟩
  · intro resp
    exact post_loop_attempts_le resp 3 1
  · intro resp hr
    rcases hr 1 (by omega) (by omega) with h1 | h1 <;>
      rcases hr 2 (by omega) (by omega) with h2 | h2 <;>
        rcases hr 3 (by omega) (by omega) with h3 | h3 <;>
          simp [post_to_app, post_loop, h1, h2, h3]
  · intro resp k hk1 hk3 hku hr
    interval_cases k
    · simp [post_to_app, post_loop, hku]
    · rcases hr 1 (by omega) (by omega) with h1 | h1 <;>
        simp [post_to_app, post_loop, h1, hku, List.range_succ]
    · rcases hr 1 (by omega) (by omega) with h1 | h1 <;>
        rcases hr 2 (by omega) (by omega) with h2 | h2 <;>
          simp [post_to_app, post_loop, h1, h2, hku, List.range_succ]
  · intro cfg batch i
    simp [run_batch, List.getElem?_map]

/-- C2 witness: three retryable failures exhaust the budget with linear
sleeps; a 401 at the second attempt stops after two attempts and one
sleep. -/
theorem ingest_retry_behavior_witness :
    post_to_app true (fun _ => .httpErr) = ⟨false, 3, [1, 2, 3]⟩ ∧
    post_to_app true (fun a => if a = 2 then .unauthorized else .httpErr) =
      ⟨false, 2, [1]⟩ := by
  constructor
  · exact ingest_retry_behavior.2.1 _ (fun a _ _ => Or.inl rfl)
  · have h := ingest_retry_behavior.2.2.1
      (fun a => if a = 2 then .unauthorized else .httpErr) 2 (by omega) (by omega)
      (by simp) (fun j hj1 hj2 => by
        have : j = 1 := by omega
        subst this
        exact Or.inl (by simp))
    simpa using h

/-! ## C7: anti-bot retry budget -/

theorem viewer_loop_attempts_le (ch : Nat → Bool) :
    ∀ r a, (viewer_loop ch a r).attempts ≤ r := by
  intro r
  induction r with
  | zero => intro a; simp [viewer_loop]
  | succ n ih =>
    intro a
    by_cases h : ch a = true <;> simp [viewer_loop, h]
    exact ih (a + 1)

theorem viewer_loop_all (ch : Nat → Bool) :
    ∀ r a, (∀ i, a ≤ i → i < a + r → ch i = true) →
      viewer_loop ch a r = ⟨true, r, r⟩ := by
  intro r
  induction r with
  | zero => intro a _; rfl
  | succ n ih =>
    intro a h
    have ha : ch a = true := h a (by omega) (by omega)
    simp only [viewer_loop, ha, if_true]
    rw [ih (a + 1) (fun i h1 h2 => h i (by omega) (by omega))]

theorem viewer_loop_backoffs (ch : Nat → Bool) :
    ∀ r a, (viewer_loop ch a r).backoffs +
        (if (viewer_loop ch a r).blocked then 0 else 1) =
      (viewer_loop ch a r).attempts := by
  intro r
  induction r with
  | zero => intro a; rfl
  | succ n ih =>
    intro a
    by_cases h : ch a = true <;> simp only [viewer_loop, h, if_true, if_false]
    · have := ih (a + 1)
      cases hb : (viewer_loop ch (a + 1) n).blocked <;> simp_all
    · simp

/-- C7.  `open_viewer_with_retry` makes at most `M` attempts (default 3)
with a `human_backoff` wait after every challenged attempt; when every
attempt lands on the challenge page the result is blocked, the record is
skipped without any ingest attempt, and the rest of the batch is
processed unchanged. -/
theorem antibot_retry_budget :
    (∀ ch M, (open_viewer_with_retry ch M).attempts ≤ M) ∧
    (∀ ch M, 1 ≤ M →
      (open_viewer_with_retry ch M).backoffs +
          (if (open_viewer_with_retry ch M).blocked then 0 else 1) =
        (open_viewer_with_retry ch M).attempts) ∧
    (∀ ch M, 1 ≤ M → (∀ i, 1 ≤ i → i ≤ M → ch i = true) →
      open_viewer_with_retry ch M = ⟨true, M, M⟩) ∧
    (∀ cfg env lot batch,
      (open_viewer_with_retry env.challenge cfg.maxViewerRetries).blocked = true →
      (process_lot cfg env).outcome = .skippedChallenge ∧
      (process_lot cfg env).post.attempts = 0 ∧
      run_batch cfg ((lot, env) :: batch) =
        (lot, process_lot cfg env) :: run_batch cfg batch) ∧
    (defaultConfig.maxViewerRetries = 3) := by
  refine ⟨?_, ?_, ?_, ?_, rfl⟩
  · intro ch M
    unfold open_viewer_with_retry
    by_cases h : M = 0
    · simp [h]
    · rw [if_neg h]
      exact viewer_loop_attempts_le ch M 1
  · intro ch M hM
    unfold open_viewer_with_retry
    rw [if_neg (by omega)]
    exact viewer_loop_backoffs ch M 1
  · intro ch M hM h
    unfold open_viewer_with_retry
    rw [if_neg (by omega)]
    exact viewer_loop_all ch M 1 (fun i h1 h2 => h i h1 (by omega))
  · intro cfg env lot batch hb
    refine ⟨?_, ?_, rfl⟩ <;>
      · unfold process_lot
        simp [hb]

/-- C7 witness: three consecutive challenge detections exhaust the
budget, the record is skipped, and the following record of the batch is
handled normally. -/
theorem antibot_retry_budget_witness :
    open_viewer_with_retry (fun _ => true) 3 = ⟨true, 3, 3⟩ ∧
    (process_lot defaultConfig envBlocked).outcome = .skippedChallenge ∧
    run_batch defaultConfig [(lotA, envBlocked), (lotB, envGood)] =
      (lotA, process_lot defaultConfig envBlocked) ::
        run_batch defaultConfig [(lotB, envGood)] := by
  refine ⟨?_, ?_, ?_⟩
  · exact antibot_retry_budget.2.2.1 _ 3 (by omega) (fun i _ _ => rfl)
  · exact (antibot_retry_budget.2.2.2.1 defaultConfig envBlocked lotA []
      (by decide)).1
  · exact (antibot_retry_budget.2.2.2.1 defaultConfig envBlocked lotA
      [(lotB, envGood)] (by decide)).2.2

/-! ## C9: checkpoint advance invariant -/

theorem or_some_or (x : Option String) (a : String) (y : Option String) :
    (x.or (some a)).or y = x.or (some a) := by
  cases x <;> rfl

theorem getLast?_cons_or (a : String) (l : List String) :
    (a :: l).getLast? = l.getLast?.or (some a) := by
  cases l with
  | nil => rfl
  | cons b t =>
    rw [List.getLast?_cons_cons]
    cases hgl : (b :: t).getLast? with
    | none =>
      exact absurd (List.getLast?_eq_none_iff.mp hgl) (by simp)
    | some x => rfl

theorem checkpoint_after_spec (cfg : Config) :
    ∀ (batch : List (Lot × LotEnv)) (init : Option String),
      (∀ p ∈ batch, p.2.stateWriteOk = true) →
      checkpoint_after cfg init batch = (ingestedNodes cfg batch).getLast?.or init := by
  intro batch
  induction batch with
  | nil => intro init _; rfl
  | cons p t ih =>
    intro init h
    have hp : p.2.stateWriteOk = true := h p (by simp)
    have hw : (process_lot cfg p.2).stateWritten =
        (process_lot cfg p.2).stateWriteAttempted := by
      simp only [process_lot, apply_ite LotResult.stateWritten,
        apply_ite LotResult.stateWriteAttempted, hp]
      simp
    have hstep : checkpoint_after cfg init (p :: t) =
        checkpoint_after cfg
          (if (process_lot cfg p.2).stateWritten then some p.1.node else init) t := rfl
    rw [hstep]
    have ht := ih (if (process_lot cfg p.2).stateWritten then some p.1.node else init)
      (fun q hq => h q (by simp [hq]))
    rw [ht]
    by_cases ha : (process_lot cfg p.2).stateWriteAttempted
    · have hwa : (process_lot cfg p.2).stateWritten = true := by rw [hw]; exact ha
      have hn : ingestedNodes cfg (p :: t) = p.1.node :: ingestedNodes cfg t := by
        unfold ingestedNodes
        rw [List.filter_cons, if_pos (by simpa using ha)]
        rfl
      rw [hwa, hn, getLast?_cons_or, if_pos rfl, or_some_or]
    · have hwa : (process_lot cfg p.2).stateWritten = false := by
        rw [hw]; simpa using ha
      have hn : ingestedNodes cfg (p :: t) = ingestedNodes cfg t := by
        unfold ingestedNodes
        rw [List.filter_cons, if_neg (by simpa using ha)]
      rw [hwa, hn]
      simp

/-- C9.  The checkpoint write is attempted for a record exactly when its
iteration ended with a successful ingest (or ingestion disabled); a
skipped record or a failed ingest never advances the checkpoint; and
when the checkpoint backend accepts every write, after any prefix of the
batch the stored value is the node of the most recently
successfully-ingested record of that prefix (or the initial value when
there is none). -/
theorem checkpoint_advance :
    (∀ cfg env, (process_lot cfg env).stateWriteAttempted = true ↔
      (process_lot cfg env).outcome = .processed true) ∧
    (∀ cfg env, (process_lot cfg env).outcome = .processed true →
      cfg.sendToApp = true → (post_to_app cfg.sendToApp env.ingest).ok = true) ∧
    (∀ cfg env, (process_lot cfg env).outcome ≠ .processed true →
      (process_lot cfg env).stateWriteAttempted = false ∧
      (process_lot cfg env).stateWritten = false) ∧
    (∀ (cfg : Config) (init : Option String) (batch : List (Lot × LotEnv)),
      (∀ p ∈ batch, p.2.stateWriteOk = true) →
      ∀ i, checkpoint_after cfg init (batch.take i) =
        (ingestedNodes cfg (batch.take i)).getLast?.or init) := by
  have hiff : ∀ cfg env, ((process_lot cfg env).stateWriteAttempted = true ↔
      (process_lot cfg env).outcome = .processed true) ∧
      ((process_lot cfg env).stateWritten = true →
        (process_lot cfg env).stateWriteAttempted = true) ∧
      ((process_lot cfg env).outcome = .processed true →
        cfg.sendToApp = true → (post_to_app cfg.sendToApp env.ingest).ok = true) := by
    intro cfg env
    simp only [process_lot, apply_ite LotResult.stateWritten,
      apply_ite LotResult.stateWriteAttempted, apply_ite LotResult.outcome]
    split
    · simp
    split
    · simp
    split
    · simp
    split
    · simp
    split
    · simp
    by_cases h6 : cfg.sendToApp <;> simp [h6] <;> tauto
  refine ⟨fun cfg env => (hiff cfg env).1, fun cfg env => (hiff cfg env).2.2, ?_, ?_⟩
  · intro cfg env hne
    have h1 : (process_lot cfg env).stateWriteAttempted = false := by
      by_contra hcon
      exact hne ((hiff cfg env).1.mp (by simpa using hcon))
    refine ⟨h1, ?_⟩
    by_contra hcon
    have := (hiff cfg env).2.1 (by simpa using hcon)
    rw [h1] at this
    exact Bool.false_ne_true this
  · intro cfg init batch h i
    exact checkpoint_after_spec cfg (batch.take i) init
      (fun p hp => h p (List.mem_of_mem_take hp))

/-- C9 witness: in a batch of an ingested record, a blocked record and a
record whose ingest fails, only the first record's node reaches the
checkpoint, after every prefix. -/
theorem checkpoint_advance_witness :
    checkpoint_after cfgNoFilter (some "init")
        ([(lotA, envGood), (lotB, envBlocked), (lotC, envIngestFail)].take 3) =
      some "nodeA" ∧
    checkpoint_after cfgNoFilter (some "init")
        ([(lotA, envGood), (lotB, envBlocked), (lotC, envIngestFail)].take 1) =
      some "nodeA" ∧
    (process_lot cfgNoFilter envIngestFail).stateWriteAttempted = false := by
  refine ⟨?_, ?_, ?_⟩
  · rw [checkpoint_advance.2.2.2 cfgNoFilter (some "init")
      [(lotA, envGood), (lotB, envBlocked), (lotC, envIngestFail)]
      (by decide) 3]
    decide
  · rw [checkpoint_advance.2.2.2 cfgNoFilter (some "init")
      [(lotA, envGood), (lotB, envBlocked), (lotC, envIngestFail)]
      (by decide) 1]
    decide
  · exact ((checkpoint_advance.2.2.1 cfgNoFilter envIngestFail) (by decide)).1

/-! ## C6: text acquisition strategy -/

/-- C6.  When native extraction over all pages yields non-empty text,
that text is used and OCR never runs; otherwise OCR runs over exactly
`min(pages, OCR_MAX_PAGES)` pages (default 3), never more; and an empty
OCR result is carried downstream as the address-not-found resolution
rather than an error. -/
theorem text_acquisition_strategy :
    (∀ cfg env, env.nativeRaises = false →
      try_pdfplumber_text env.pdfPages ≠ [] →
      lot_text_acq cfg env = (try_pdfplumber_text env.pdfPages, false, some 0) ∧
      lot_addr cfg env =
        parse_best_address_from_text (try_pdfplumber_text env.pdfPages)) ∧
    (∀ cfg env, env.nativeRaises = false →
      try_pdfplumber_text env.pdfPages = [] → env.ocrRaises = false →
      lot_text_acq cfg env =
        ((ocr_pdf_bytes env.pdfPages cfg.ocrMaxPages).1, true,
          some (min env.pdfPages.length cfg.ocrMaxPages)) ∧
      min env.pdfPages.length cfg.ocrMaxPages ≤ cfg.ocrMaxPages) ∧
    (∀ pages max_pages,
      (ocr_pdf_bytes pages max_pages).2 = min pages.length max_pages) ∧
    (parse_best_address_from_text [] = emptyResolution []) ∧
    (∀ cfg env, env.nativeRaises = false →
      try_pdfplumber_text env.pdfPages = [] → env.ocrRaises = false →
      (ocr_pdf_bytes env.pdfPages cfg.ocrMaxPages).1 = [] →
      lot_addr cfg env = emptyResolution [] ∧
      (lot_addr cfg env).marker_found = false ∧
      (lot_addr cfg env).address = none) ∧
    (defaultConfig.ocrMaxPages = 3) := by
  have hacq2 : ∀ cfg env, env.nativeRaises = false →
      try_pdfplumber_text env.pdfPages = [] → env.ocrRaises = false →
      lot_text_acq cfg env =
        ((ocr_pdf_bytes env.pdfPages cfg.ocrMaxPages).1, true,
          some (min env.pdfPages.length cfg.ocrMaxPages)) := by
    intro cfg env hn he ho
    unfold lot_text_acq
    rw [hn]
    simp only [Bool.false_eq_true, if_false, he, ho]
    simp [ocr_pdf_bytes]
  refine ⟨?_, ?_, fun pages m => rfl, rfl, ?_, rfl⟩
  · intro cfg env hn hne
    have hacq : lot_text_acq cfg env =
        (try_pdfplumber_text env.pdfPages, false, some 0) := by
      unfold lot_text_acq
      rw [hn]
      simp [hne]
    refine ⟨hacq, ?_⟩
    unfold lot_addr
    rw [hacq]
    simp
  · intro cfg env hn he ho
    exact ⟨hacq2 cfg env hn he ho, Nat.min_le_right _ _⟩
  · intro cfg env hn he ho hocr
    have ha : lot_addr cfg env = emptyResolution [] := by
      unfold lot_addr
      rw [hacq2 cfg env hn he ho]
      simp only [ho, hocr]
      simp
      rfl
    exact ⟨ha, by rw [ha]; rfl, by rw [ha]; rfl⟩

/-- C6 witness: a document with native text skips OCR; a scanned
two-page document under the default configuration OCRs exactly two
pages; a document with no text at all flows on with the not-found
address resolution. -/
theorem text_acquisition_witness :
    lot_text_acq defaultConfig envGood =
      (try_pdfplumber_text envGood.pdfPages, false, some 0) ∧
    lot_text_acq defaultConfig envScan =
      ((ocr_pdf_bytes envScan.pdfPages 3).1, true, some 2) ∧
    lot_addr defaultConfig envNoText = emptyResolution [] := by
  refine ⟨?_, ?_, ?_⟩
  · exact (text_acquisition_strategy.1 defaultConfig envGood rfl (by decide)).1
  · have h := (text_acquisition_strategy.2.1 defaultConfig envScan rfl
      (by decide) rfl).1
    simpa using h
  · exact (text_acquisition_strategy.2.2.2.2.1 defaultConfig envNoText rfl
      (by decide) rfl (by decide)).1

/-! ## C10: marker fall-through and whole-text fallback -/

/-- C10.  A marker whose phrase matches but with no city pattern
anywhere after it does not end the resolution: its attempt yields
`none` and the loop falls through; and when all three marker attempts
yield `none` but a city pattern occurs somewhere in the text, the
result is the whole-text first match with `marker_used =
"FALLBACK_FIRST_MATCH"` and `marker_found = true`. -/
theorem marker_fallthrough :
    (∀ (name : String) (words : List Chars) (text afterRaw : Chars),
      scanFirst (fun s => (tryWords words s).map markerTail) text = some afterRaw →
      scanFirstIdx tryCityAt (trimChars afterRaw) = none →
      marker_attempt name words text = none) ∧
    (∀ (text : Chars), text ≠ [] →
      marker_attempt "ADDRESS_ON_RECORD" onRecordWords text = none →
      marker_attempt "PHYSICAL_ADDRESS" physicalWords text = none →
      marker_attempt "TITLE_HOLDER_ADDRESS" titleHolderWords text = none →
      ∀ p, scanFirstIdx tryCityAt text = some p →
        (parse_best_address_from_text text).marker_used =
          some "FALLBACK_FIRST_MATCH" ∧
        (parse_best_address_from_text text).marker_found = true) := by
  constructor
  · intro name words text afterRaw h1 h2
    unfold marker_attempt
    rw [h1]
    simp only [h2]
  · intro text hne h1 h2 h3 p hp
    obtain ⟨idx, cm⟩ := p
    unfold parse_best_address_from_text
    rw [if_neg hne, h1, h2, h3, hp]
    exact ⟨rfl, rfl⟩

/-- C10 witness: a text whose only city pattern precedes the (matching)
physical-address marker; the marker attempt falls through and the
whole-text fallback reports the city. -/
theorem marker_fallthrough_witness :
    marker_attempt "PHYSICAL_ADDRESS" physicalWords
        ("ORLANDO, FL 32801\nPHYSICAL ADDRESS: nothing".toList) = none ∧
    (parse_best_address_from_text
        ("ORLANDO, FL 32801\nPHYSICAL ADDRESS: nothing".toList)).marker_used =
      some "FALLBACK_FIRST_MATCH" := by
  constructor
  · exact marker_fallthrough.1 "PHYSICAL_ADDRESS" physicalWords _
      (" nothing".toList) (by decide) (by decide)
  · exact (marker_fallthrough.2 _ (by decide) (by decide) (by decide)
      (by decide)
      ((0 : Nat), ⟨"ORLANDO".toList, "FL".toList, "32801".toList, 17⟩)
      (by decide)).1

/-! ## C4: address marker priority — helper lemmas -/

theorem isAlpha_not_isWS {c : Char} (h : c.isAlpha = true) : isWS c = false := by
  by_contra hws
  rcases isWS_elim (by simpa using hws) with rfl | rfl | rfl | rfl | rfl | rfl <;>
    exact absurd h (by decide)

theorem isDigit_not_alpha {c : Char} (h : c.isDigit = true) : c.isAlpha = false := by
  by_contra hal
  have hal' : c.isAlpha = true := by simpa using hal
  simp only [Char.isDigit, Bool.and_eq_true, decide_eq_true_eq, ge_iff_le] at h
  simp only [Char.isAlpha, Char.isUpper, Char.isLower, Bool.or_eq_true,
    Bool.and_eq_true, decide_eq_true_eq, ge_iff_le] at hal'
  obtain ⟨h1, h2⟩ := h
  have h1' : (48 : UInt32).toNat ≤ c.val.toNat := h1
  have h2' : c.val.toNat ≤ (57 : UInt32).toNat := h2
  rw [show (48 : UInt32).toNat = 48 from rfl] at h1'
  rw [show (57 : UInt32).toNat = 57 from rfl] at h2'
  rcases hal' with ⟨h3, h4⟩ | ⟨h3, h4⟩
  · have h3' : (65 : UInt32).toNat ≤ c.val.toNat := h3
    rw [show (65 : UInt32).toNat = 65 from rfl] at h3'
    omega
  · have h3' : (97 : UInt32).toNat ≤ c.val.toNat := h3
    rw [show (97 : UInt32).toNat = 97 from rfl] at h3'
    omega

theorem isDigit_cityClass_false {c : Char} (h : c.isDigit = true) :
    cityClass c = false := by
  have ha := isDigit_not_alpha h
  have h1 : c ≠ ' ' := by rintro rfl; exact absurd h (by decide)
  have h2 : c ≠ '.' := by rintro rfl; exact absurd h (by decide)
  have h3 : c ≠ '\'' := by rintro rfl; exact absurd h (by decide)
  have h4 : c ≠ '-' := by rintro rfl; exact absurd h (by decide)
  simp [cityClass, ha, h1, h2, h3, h4]

theorem isAlpha_ne_comma {c : Char} (h : c.isAlpha = true) : c ≠ ',' := by
  rintro rfl; exact absurd h (by decide)

theorem mem_of_getLast? {l : Chars} {c : Char} (h : l.getLast? = some c) :
    c ∈ l := by
  rw [List.getLast?_eq_head?_reverse] at h
  have : c ∈ l.reverse := by
    cases hrev : l.reverse with
    | nil => rw [hrev] at h; simp at h
    | cons x t =>
      rw [hrev] at h
      simp only [List.head?_cons, Option.some.injEq] at h
      simp [← h]
  simpa using this

theorem mem_of_head? {l : Chars} {c : Char} (h : l.head? = some c) : c ∈ l := by
  cases l with
  | nil => simp at h
  | cons x t =>
    simp only [List.head?_cons, Option.some.injEq] at h
    simp [← h]

theorem getLast?_suffix (a b : Chars) (hb : b ≠ []) :
    (a ++ b).getLast? = b.getLast? := by
  rw [List.getLast?_append]
  cases hgl : b.getLast? with
  | none => exact absurd (List.getLast?_eq_none_iff.mp hgl) hb
  | some x => rfl

theorem getLast?_cons_ne (x : Char) (b : Chars) (hb : b ≠ []) :
    (x :: b).getLast? = b.getLast? := by
  cases b with
  | nil => exact absurd rfl hb
  | cons y t => exact List.getLast?_cons_cons

theorem dropWhile_head_false (p : Char → Bool) :
    ∀ (l : Chars) (d : Char) (r : Chars), l.dropWhile p = d :: r → p d = false := by
  intro l
  induction l with
  | nil => intro d r h; simp at h
  | cons c t ih =>
    intro d r h
    rw [List.dropWhile_cons] at h
    by_cases hc : p c = true
    · rw [if_pos hc] at h
      exact ih d r h
    · rw [if_neg hc] at h
      cases h
      simpa using hc

theorem drop_takeWhile_length (p : Char → Bool) (l : Chars) :
    l.drop (l.takeWhile p).length = l.dropWhile p := by
  induction l with
  | nil => rfl
  | cons c t ih =>
    by_cases h : p c = true
    · simp [List.takeWhile_cons, List.dropWhile_cons, h, ih]
    · have h' : p c = false := by simpa using h
      simp [List.takeWhile_cons, List.dropWhile_cons, h']

theorem trimChars_cons_ws (c : Char) (l : Chars) (h : isWS c = true) :
    trimChars (c :: l) = trimChars l := by
  unfold trimChars
  rw [List.dropWhile_cons, if_pos h]

theorem scanFirst_cons_some (f : Chars → Option α) (c : Char) (cs : Chars)
    (v : α) (h : f (c :: cs) = some v) : scanFirst f (c :: cs) = some v := by
  rw [scanFirst, h]

theorem scanFirstIdx_cons_some (f : Chars → Option α) (c : Char) (cs : Chars)
    (v : α) (h : f (c :: cs) = some v) :
    scanFirstIdx f (c :: cs) = some (0, v) := by
  rw [scanFirstIdx, h]

/-- A street line (letters, digits, spaces) followed by a newline and
then a line starting with a letter never begins a city-pattern match. -/
theorem tryCityAt_street_none (u w : Chars)
    (hu : ∀ c ∈ u, c.isAlpha = true ∨ c.isDigit = true ∨ c = ' ')
    (c0 : Char) (hw : w.head? = some c0) (hc0 : c0.isAlpha = true) :
    tryCityAt (u ++ '\n' :: w) = none := by
  obtain ⟨w', rfl⟩ : ∃ w', w = c0 :: w' := by
    cases w with
    | nil => simp at hw
    | cons x t =>
      simp only [List.head?_cons, Option.some.injEq] at hw
      exact ⟨t, by rw [hw]⟩
  unfold tryCityAt
  cases hdw : u.dropWhile cityClass with
  | nil =>
    have hall : ∀ c ∈ u, cityClass c = true := List.dropWhile_eq_nil_iff.mp hdw
    have hrun : (u ++ '\n' :: c0 :: w').takeWhile cityClass = u := by
      rw [takeWhile_append_all _ _ _ hall, List.takeWhile_cons, if_neg (by decide)]
      simp
    rw [hrun]
    by_cases hu0 : u = []
    · rw [if_pos hu0]
    · rw [if_neg hu0, List.drop_left]
      unfold cityAfterRun
      have hws : ('\n' :: c0 :: w').takeWhile isWS = ['\n'] := by
        rw [List.takeWhile_cons, if_pos (by decide), List.takeWhile_cons,
          if_neg (by simp [isAlpha_not_isWS hc0])]
      rw [hws]
      simp only [List.length_cons, List.length_nil, List.drop_succ_cons,
        List.drop_zero]
      split
      · rename_i r2 heq
        cases heq
        exact absurd rfl (isAlpha_ne_comma hc0)
      · rfl
  | cons d u₂ =>
    have hdmem : d ∈ u := by
      have : d ∈ u.dropWhile cityClass := by rw [hdw]; simp
      exact (List.dropWhile_sublist cityClass).subset this
    have hdc : cityClass d = false := dropWhile_head_false cityClass u d u₂ hdw
    have hddig : d.isDigit = true := by
      rcases hu d hdmem with h | h | h
      · rw [show cityClass d = true by simp [cityClass, h]] at hdc
        exact absurd hdc (by simp)
      · exact h
      · rw [show cityClass d = true by simp [cityClass, h]] at hdc
        exact absurd hdc (by simp)
    have hrun : (u ++ '\n' :: c0 :: w').takeWhile cityClass = u.takeWhile cityClass :=
      takeWhile_append_stop _ _ _ (by rw [hdw]; simp)
    rw [hrun]
    by_cases hr0 : u.takeWhile cityClass = []
    · rw [if_pos hr0]
    · rw [if_neg hr0]
      have hdrop : (u ++ '\n' :: c0 :: w').drop (u.takeWhile cityClass).length =
          d :: (u₂ ++ '\n' :: c0 :: w') := by
        rw [List.drop_append_of_le_length (List.takeWhile_sublist cityClass).length_le,
          drop_takeWhile_length, hdw]
        rfl
      rw [hdrop]
      unfold cityAfterRun
      have hws : (d :: (u₂ ++ '\n' :: c0 :: w')).takeWhile isWS = [] := by
        rw [List.takeWhile_cons, if_neg (by simp [isDigit_not_isWS hddig])]
      rw [hws]
      simp only [List.length_nil, List.drop_zero]
      split
      · rename_i r2 heq
        cases heq
        exact absurd hddig (by decide)
      · rfl

/-- The city pattern matches at the head of a well-formed
`City, ST ZIP` line followed by a newline. -/
theorem tryCityAt_hit (city : Chars) (a b : Char) (zp rest : Chars)
    (hcne : city ≠ []) (hcall : ∀ c ∈ city, c.isAlpha = true)
    (hab : a.isAlpha = true) (hb : b.isAlpha = true)
    (hzp : zp.length = 5) (hzpd : ∀ c ∈ zp, c.isDigit = true) :
    tryCityAt (city ++ (',' :: ' ' :: a :: b :: ' ' :: (zp ++ '\n' :: rest))) =
      some ⟨city, [a, b], zp, city.length + 10⟩ := by
  obtain ⟨z1, zt, rfl⟩ : ∃ z1 zt, zp = z1 :: zt := by
    cases zp with
    | nil => simp at hzp
    | cons z1 zt => exact ⟨z1, zt, rfl⟩
  have hz1 : z1.isDigit = true := hzpd z1 (by simp)
  unfold tryCityAt
  have hrun : (city ++ (',' :: ' ' :: a :: b :: ' ' :: ((z1 :: zt) ++ '\n' :: rest))).takeWhile cityClass = city := by
    rw [takeWhile_append_all _ _ _
      (fun c hc => by simp [cityClass, hcall c hc]), List.takeWhile_cons,
      if_neg (by decide)]
    simp
  rw [hrun, if_neg hcne, List.drop_left city]
  unfold cityAfterRun
  rw [show (',' :: ' ' :: a :: b :: ' ' :: ((z1 :: zt) ++ '\n' :: rest)).takeWhile isWS = []
    from by rw [List.takeWhile_cons, if_neg (by decide)]]
  simp only [List.length_nil, List.drop_zero]
  unfold cityAfterComma
  rw [show (' ' :: a :: b :: ' ' :: ((z1 :: zt) ++ '\n' :: rest)).takeWhile isWS = [' ']
    from by
      rw [List.takeWhile_cons, if_pos (by decide), List.takeWhile_cons,
        if_neg (by simp [isAlpha_not_isWS hab])]]
  simp only [List.length_cons, List.length_nil, List.drop_succ_cons, List.drop_zero]
  rw [show (a :: b :: ' ' :: ((z1 :: zt) ++ '\n' :: rest)).take 2 = [a, b] from rfl]
  rw [if_pos (by simp [hab, hb])]
  unfold cityAfterState
  rw [show (' ' :: ((z1 :: zt) ++ '\n' :: rest)).takeWhile isWS = [' '] from by
    rw [List.takeWhile_cons, if_pos (by decide), List.cons_append,
      List.takeWhile_cons, if_neg (by simp [isDigit_not_isWS hz1])]]
  simp only [List.length_cons, List.length_nil, List.drop_succ_cons, List.drop_zero]
  have htk : ((z1 :: zt) ++ '\n' :: rest).take 5 = z1 :: zt := by
    rw [← hzp, List.take_left]
  have hdk : ((z1 :: zt) ++ '\n' :: rest).drop 5 = '\n' :: rest := by
    rw [← hzp, List.drop_left]
  rw [htk, hdk]
  rw [if_pos (by simp only [hzp, List.all_eq_true, beq_self_eq_true, Bool.true_and,
    decide_eq_true_eq]; exact hzpd)]
  unfold cityZip
  split
  · rename_i r7 heq
    exact absurd heq (by simp)
  · simp only [Option.some.injEq, CityMatch.mk.injEq, true_and, and_true]

theorem splitLinesAux_no_break :
    ∀ (u acc rest : Chars),
      (∀ c ∈ u, c ≠ '\n' ∧ c ≠ '\r' ∧ c ≠ '\x0b' ∧ c ≠ '\x0c') →
      splitLinesAux (u ++ '\n' :: rest) acc false =
        (acc.reverse ++ u) :: splitLinesAux rest [] false := by
  intro u
  induction u with
  | nil =>
    intro acc rest _
    show splitLinesAux ('\n' :: rest) acc false = _
    rw [splitLinesAux]
    rw [if_neg (by decide), if_pos (by decide)]
    simp
  | cons c u' ih =>
    intro acc rest h
    obtain ⟨h1, h2, h3, h4⟩ := h c (by simp)
    show splitLinesAux (c :: (u' ++ '\n' :: rest)) acc false = _
    rw [splitLinesAux, if_neg h2, if_neg h1, if_neg (by simp [h3, h4])]
    rw [ih (c :: acc) rest (fun d hd => h d (by simp [hd]))]
    simp

/-- C4.  The resolver honours the fixed marker order: an on-record match
with a city ends the search; with on-record absent, a physical-address
match with a city ends the search before the title-holder marker is
ever consulted; and concretely, a text holding both a physical-address
block and a later title-holder block with different city/zip values
resolves to the physical block's street, city, state and zip. -/
theorem address_marker_priority :
    (∀ (text : Chars) (r : AddressResolution), text ≠ [] →
      marker_attempt "ADDRESS_ON_RECORD" onRecordWords text = some r →
      parse_best_address_from_text text = r) ∧
    (∀ (text : Chars) (r : AddressResolution), text ≠ [] →
      marker_attempt "ADDRESS_ON_RECORD" onRecordWords text = none →
      marker_attempt "PHYSICAL_ADDRESS" physicalWords text = some r →
      parse_best_address_from_text text = r) ∧
    (∀ (pre street1 city1 zip1 mid street2 city2 st2 zip2 : Chars)
      (a1 b1 : Char),
      street1 ≠ [] →
      (∀ c ∈ street1, c.isAlpha = true ∨ c.isDigit = true ∨ c = ' ') →
      street1.head? ≠ some ' ' → street1.getLast? ≠ some ' ' →
      city1 ≠ [] → (∀ c ∈ city1, c.isAlpha = true) →
      a1.isAlpha = true → b1.isAlpha = true →
      zip1.length = 5 → (∀ c ∈ zip1, c.isDigit = true) →
      zip2 ≠ [] → (∀ c ∈ zip2, c.isDigit = true) →
      (city1 ≠ city2 ∨ zip1 ≠ zip2) →
      marker_attempt "ADDRESS_ON_RECORD" onRecordWords
        (physThenTitleText pre street1 city1 [a1, b1] zip1 mid
          street2 city2 st2 zip2) = none →
      (∀ n, n < pre.length →
        tryWords physicalWords (pre.drop n ++ ("PHYSICAL ADDRESS:".toList ++
          addressBlock street1 city1 [a1, b1] zip1
            ('\n' :: (mid ++ titleBlockText street2 city2 st2 zip2)))) = none) →
      (parse_best_address_from_text
          (physThenTitleText pre street1 city1 [a1, b1] zip1 mid
            street2 city2 st2 zip2)).marker_used = some "PHYSICAL_ADDRESS" ∧
      (parse_best_address_from_text
          (physThenTitleText pre street1 city1 [a1, b1] zip1 mid
            street2 city2 st2 zip2)).city =
        some (trimChars (titleCase city1)) ∧
      (parse_best_address_from_text
          (physThenTitleText pre street1 city1 [a1, b1] zip1 mid
            street2 city2 st2 zip2)).state =
        some (([a1, b1] : Chars).map Char.toUpper) ∧
      (parse_best_address_from_text
          (physThenTitleText pre street1 city1 [a1, b1] zip1 mid
            street2 city2 st2 zip2)).zip = some zip1 ∧
      (parse_best_address_from_text
          (physThenTitleText pre street1 city1 [a1, b1] zip1 mid
            street2 city2 st2 zip2)).address = some street1 ∧
      (parse_best_address_from_text
          (physThenTitleText pre street1 city1 [a1, b1] zip1 mid
            street2 city2 st2 zip2)).marker_found = true) := by
  have ho1 : ∀ (text : Chars) (r : AddressResolution), text ≠ [] →
      marker_attempt "ADDRESS_ON_RECORD" onRecordWords text = some r →
      parse_best_address_from_text text = r := by
    intro text r hne h1
    unfold parse_best_address_from_text
    rw [if_neg hne, h1]
  have ho2 : ∀ (text : Chars) (r : AddressResolution), text ≠ [] →
      marker_attempt "ADDRESS_ON_RECORD" onRecordWords text = none →
      marker_attempt "PHYSICAL_ADDRESS" physicalWords text = some r →
      parse_best_address_from_text text = r := by
    intro text r hne h1 h2
    unfold parse_best_address_from_text
    rw [if_neg hne, h1, h2]
  refine ⟨ho1, ho2, ?_⟩
  intro pre street1 city1 zip1 mid street2 city2 st2 zip2 a1 b1
    hs1ne hs1c hs1h hs1l hc1ne hc1a ha1 hb1 hz1 hz1d hz2ne hz2d hdiff
    honrec hpre
  obtain ⟨c0, ct, rfl⟩ : ∃ c0 ct, city1 = c0 :: ct := by
    cases city1 with
    | nil => exact absurd rfl hc1ne
    | cons x t => exact ⟨x, t, rfl⟩
  have hc0 : c0.isAlpha = true := hc1a c0 (by simp)
  set TT := titleBlockText street2 city2 st2 zip2 with hTT
  set rest1 : Chars := '\n' :: (mid ++ TT) with hrest1
  set B := addressBlock street1 (c0 :: ct) [a1, b1] zip1 rest1 with hB
  set lit : Chars := "PHYSICAL ADDRESS:".toList with hlit
  set after0 : Chars :=
    street1 ++ ('\n' :: ((c0 :: ct) ++ (',' :: ' ' :: ([a1, b1] ++
      (' ' :: (zip1 ++ rest1)))))) with hafter0
  have htxt : physThenTitleText pre street1 (c0 :: ct) [a1, b1] zip1 mid
      street2 city2 st2 zip2 = pre ++ (lit ++ B) := rfl
  -- the marker scan lands exactly on the canonical marker
  have hscan : scanFirst (fun s => (tryWords physicalWords s).map markerTail)
      (pre ++ (lit ++ B)) = some B := by
    rw [scanFirst_append_none _ pre (lit ++ B) (fun n hn => by
      simp only [hpre n hn, Option.map_none'])]
    exact scanFirst_cons_some _ 'P' _ B rfl
  -- stripping the raw post-marker slice yields the block body
  have hlast : ∀ c, after0.getLast? = some c → isWS c = false := by
    intro c hcl
    rw [hafter0, hrest1, hTT] at hcl
    unfold titleBlockText addressBlock at hcl
    rw [getLast?_suffix _ _ (by simp)] at hcl
    rw [getLast?_cons_ne _ _ (by simp)] at hcl
    rw [getLast?_suffix _ _ (by simp)] at hcl
    rw [getLast?_cons_ne _ _ (by simp)] at hcl
    rw [getLast?_cons_ne _ _ (by simp)] at hcl
    rw [getLast?_suffix _ _ (by simp)] at hcl
    rw [getLast?_cons_ne _ _ (by simp)] at hcl
    rw [getLast?_suffix _ _ (by simp)] at hcl
    rw [getLast?_cons_ne _ _ (by simp)] at hcl
    rw [getLast?_suffix _ _ (by simp)] at hcl
    rw [getLast?_suffix _ _ (by simp)] at hcl
    rw [getLast?_cons_ne _ _ (by simp)] at hcl
    rw [getLast?_suffix _ _ (by simp)] at hcl
    rw [getLast?_cons_ne _ _ (by simp)] at hcl
    rw [getLast?_suffix _ _ (by simp)] at hcl
    rw [getLast?_cons_ne _ _ (by simp)] at hcl
    rw [getLast?_cons_ne _ _ (by simp [hz2ne])] at hcl
    rw [getLast?_suffix _ _ (by simp [hz2ne])] at hcl
    rw [getLast?_cons_ne _ _ (by simp [hz2ne])] at hcl
    rw [List.append_nil] at hcl
    exact isDigit_not_isWS (hz2d c (mem_of_getLast? hcl))
  have hhead : ∀ c, after0.head? = some c → isWS c = false := by
    intro c hch
    rw [hafter0, List.head?_append_of_ne_nil _ hs1ne] at hch
    have hmem := mem_of_head? hch
    rcases hs1c c hmem with h | h | h
    · exact isAlpha_not_isWS h
    · exact isDigit_not_isWS h
    · exact absurd (h ▸ hch) hs1h
  have htrimB : trimChars B = after0 := by
    rw [show B = '\n' :: after0 from rfl, trimChars_cons_ws _ _ (by decide)]
    exact trimChars_eq_self after0 hhead hlast
  -- the first city match sits right after the street line
  have hhit : tryCityAt ((c0 :: ct) ++ (',' :: ' ' :: a1 :: b1 :: ' ' ::
      (zip1 ++ '\n' :: (mid ++ TT)))) =
      some ⟨c0 :: ct, [a1, b1], zip1, (c0 :: ct).length + 10⟩ :=
    tryCityAt_hit (c0 :: ct) a1 b1 zip1 (mid ++ TT) (by simp) hc1a ha1 hb1 hz1 hz1d
  have hshape2 : after0 = (street1 ++ ['\n']) ++ ((c0 :: ct) ++
      (',' :: ' ' :: ([a1, b1] ++ (' ' :: (zip1 ++ rest1))))) := by
    rw [hafter0]
    simp
  have hcity : scanFirstIdx tryCityAt after0 =
      some (street1.length + 1,
        ⟨c0 :: ct, [a1, b1], zip1, (c0 :: ct).length + 10⟩) := by
    rw [hshape2]
    rw [scanFirstIdx_append_none tryCityAt (street1 ++ ['\n']) _ (fun n hn => by
      have hn' : n ≤ street1.length := by
        simp only [List.length_append, List.length_cons, List.length_nil] at hn
        omega
      rw [List.drop_append_of_le_length hn', List.append_assoc]
      exact tryCityAt_street_none (street1.drop n) _
        (fun d hd => hs1c d (List.mem_of_mem_drop hd)) c0 (by rfl) hc0)]
    have hscan0 : scanFirstIdx tryCityAt ((c0 :: ct) ++
        (',' :: ' ' :: ([a1, b1] ++ (' ' :: (zip1 ++ rest1))))) =
        some (0, (⟨c0 :: ct, [a1, b1], zip1, (c0 :: ct).length + 10⟩ : CityMatch)) :=
      scanFirstIdx_cons_some tryCityAt c0 _ _ hhit
    rw [hscan0]
    simp
  -- the street line above the city match
  have hstreet : _extract_street_before_city after0 (street1.length + 1) =
      some street1 := by
    unfold _extract_street_before_city
    have htk : after0.take (street1.length + 1) = street1 ++ ['\n'] := by
      rw [hshape2, show street1.length + 1 = (street1 ++ ['\n']).length by simp,
        List.take_left]
    rw [htk]
    have hsplit : splitLines (street1 ++ ['\n']) = [street1, []] := by
      unfold splitLines
      rw [show (street1 ++ ['\n'] : Chars) = street1 ++ '\n' :: [] from rfl]
      rw [splitLinesAux_no_break street1 [] [] (fun c hc => by
        rcases hs1c c hc with h | h | h
        · refine ⟨?_, ?_, ?_, ?_⟩ <;> (rintro rfl; exact absurd h (by decide))
        · refine ⟨?_, ?_, ?_, ?_⟩ <;> (rintro rfl; exact absurd h (by decide))
        · subst h; refine ⟨by decide, by decide, by decide, by decide⟩)]
      rfl
    rw [hsplit]
    have hts : trimChars street1 = street1 := by
      refine trimChars_eq_self street1 (fun c hc => ?_) (fun c hc => ?_)
      · rcases hs1c c (mem_of_head? hc) with h | h | h
        · exact isAlpha_not_isWS h
        · exact isDigit_not_isWS h
        · exact absurd (h ▸ hc) hs1h
      · rcases hs1c c (mem_of_getLast? hc) with h | h | h
        · exact isAlpha_not_isWS h
        · exact isDigit_not_isWS h
        · exact absurd (h ▸ hc) hs1l
    simp [hts, hs1ne]
    rw [show trimChars ([] : Chars) = [] from rfl]
    simp
  -- the physical-address attempt returns the block's resolution
  have hPA : marker_attempt "PHYSICAL_ADDRESS" physicalWords
      (pre ++ (lit ++ B)) =
      some { address := some street1
             city := some (trimChars (titleCase (c0 :: ct)))
             state := some (([a1, b1] : Chars).map Char.toUpper)
             zip := some zip1
             marker_used := some "PHYSICAL_ADDRESS"
             marker_found := true
             snippet := after0.take 700 } := by
    unfold marker_attempt
    rw [hscan]
    simp only [htrimB, hcity, hstreet]
  have hne : pre ++ (lit ++ B) ≠ [] := by
    simp [hlit]
  have hfinal := ho2 (pre ++ (lit ++ B)) _ hne (htxt ▸ honrec) hPA
  rw [htxt, hfinal]
  exact ⟨rfl, rfl, rfl, rfl, rfl, rfl⟩

/-- Witness for C4 at a concrete two-block text. -/
theorem address_marker_priority_witness :
    (parse_best_address_from_text
        (physThenTitleText "intro\n".toList "407 Dill Rd".toList
          "ORLANDO".toList ['F', 'L'] "32801".toList " Owner: X ".toList
          "99 Palm Ave".toList "MIAMI".toList "FL".toList
          "33101".toList)).marker_used = some "PHYSICAL_ADDRESS" ∧
    (parse_best_address_from_text
        (physThenTitleText "intro\n".toList "407 Dill Rd".toList
          "ORLANDO".toList ['F', 'L'] "32801".toList " Owner: X ".toList
          "99 Palm Ave".toList "MIAMI".toList "FL".toList
          "33101".toList)).city = some (trimChars (titleCase "ORLANDO".toList)) ∧
    (parse_best_address_from_text
        (physThenTitleText "intro\n".toList "407 Dill Rd".toList
          "ORLANDO".toList ['F', 'L'] "32801".toList " Owner: X ".toList
          "99 Palm Ave".toList "MIAMI".toList "FL".toList
          "33101".toList)).zip = some "32801".toList ∧
    (parse_best_address_from_text
        (physThenTitleText "intro\n".toList "407 Dill Rd".toList
          "ORLANDO".toList ['F', 'L'] "32801".toList " Owner: X ".toList
          "99 Palm Ave".toList "MIAMI".toList "FL".toList
          "33101".toList)).address = some "407 Dill Rd".toList := by
  have h := address_marker_priority.2.2 "intro\n".toList "407 Dill Rd".toList
    "ORLANDO".toList "32801".toList " Owner: X ".toList "99 Palm Ave".toList
    "MIAMI".toList "FL".toList "33101".toList 'F' 'L'
    (by decide) (by decide) (by decide) (by decide) (by decide) (by decide)
    (by decide) (by decide) (by decide) (by decide) (by decide) (by decide)
    (by decide) (by decide) (by decide)
  exact ⟨h.1, h.2.1, h.2.2.2.1, h.2.2.2.2.1⟩

theorem scanFirst_of_some (f : Chars → Option α) (s : Chars) (v : α)
    (h : f s = some v) : scanFirst f s = some v := by
  cases s with
  | nil => exact h
  | cons c cs => rw [scanFirst, h]

theorem pick_none (tryAt : Chars → Option Chars) (txt : Chars)
    (h : scanFirst tryAt txt = none) : pick tryAt txt = [] := by
  unfold pick
  rw [h]

theorem pick_hit (tryAt : Chars → Option Chars) (P Sfx raw : Chars)
    (hpre : ∀ n, n < P.length → tryAt (P.drop n ++ Sfx) = none)
    (hhit : tryAt Sfx = some raw) :
    pick tryAt (P ++ Sfx) = trimChars raw := by
  unfold pick
  rw [scanFirst_append_none tryAt P Sfx hpre, scanFirst_of_some _ _ _ hhit]

theorem trimChars_append_ws (v : Chars)
    (hh : ∀ c, v.head? = some c → isWS c = false)
    (hl : ∀ c, v.getLast? = some c → isWS c = false) :
    trimChars (v ++ [' ']) = v := by
  cases v with
  | nil => rfl
  | cons c t =>
    unfold trimChars
    rw [show (c :: t) ++ [' '] = c :: (t ++ [' ']) from rfl]
    rw [List.dropWhile_cons, if_neg (by simp [hh c rfl])]
    rw [show (c :: (t ++ [' '])).reverse = ' ' :: (c :: t).reverse from by simp]
    rw [List.dropWhile_cons, if_pos (by decide)]
    rw [dropWhile_eq_self_of_head isWS _
      (fun d hd => hl d (by rwa [List.head?_reverse] at hd))]
    simp

theorem lazyClassCapture_exact (cls : Char → Bool) (bdry : Chars → Bool) :
    ∀ (v rest : Chars), v ≠ [] → (∀ c ∈ v, cls c = true) →
    (∀ n, 1 ≤ n → n < v.length → bdry (v.drop n ++ rest) = false) →
    bdry rest = true →
    lazyClassCapture cls bdry (v ++ rest) = some v := by
  intro v
  induction v with
  | nil => intro rest h; exact absurd rfl h
  | cons c v' ih =>
    intro rest _ hcls hmid hend
    rw [show (c :: v') ++ rest = c :: (v' ++ rest) from rfl]
    rw [lazyClassCapture, if_pos (hcls c (by simp))]
    cases v' with
    | nil =>
      rw [if_pos (by simpa using hend)]
    | cons d v'' =>
      have hb : bdry (d :: (v'' ++ rest)) = false := by
        have := hmid 1 (le_refl 1) (by simp)
        simpa using this
      rw [if_neg (by simp [hb])]
      rw [ih rest (by simp) (fun e he => hcls e (by simp [he]))
        (fun n h1 hn => by
          simpa using hmid (n + 1) (by omega)
            (by simp only [List.length_cons] at hn ⊢; omega))
        hend]

theorem headD_facts {l : Chars} (h : isWS (l.headD 'x') = false) :
    ∀ c, l.head? = some c → isWS c = false := by
  intro c hc
  cases l with
  | nil => simp at hc
  | cons a t =>
    simp only [List.head?_cons, Option.some.injEq] at hc
    simpa [List.headD, ← hc] using h

theorem getLastD_facts {l : Chars} (h : isWS (l.getLastD 'x') = false) :
    ∀ c, l.getLast? = some c → isWS c = false := by
  intro c hc
  rw [List.getLastD_eq_getLast?, hc] at h
  exact h

theorem takeDigits_exact (k : Nat) (d tail : Chars) (hk : d.length = k)
    (hd : ∀ c ∈ d, c.isDigit = true) :
    takeDigits k (d ++ tail) = some (d, tail) := by
  unfold takeDigits
  rw [← hk, List.take_left, List.drop_left]
  rw [if_pos (by simp only [beq_self_eq_true, Bool.true_and, List.all_eq_true,
    decide_eq_true_eq]; exact hd)]


theorem tryTaxSaleAt_hit (d4 ds rest : Chars)
    (h4 : d4.length = 4) (h4d : ∀ c ∈ d4, c.isDigit = true)
    (hds : ds ≠ []) (hdsd : ∀ c ∈ ds, c.isDigit = true) :
    tryTaxSaleAt ("Tax Sale ".toList ++ (d4 ++ ('-' :: (ds ++ (' ' :: rest))))) =
      some (d4 ++ '-' :: ds) := by
  obtain ⟨e1, d4', rfl⟩ : ∃ e1 d4', d4 = e1 :: d4' := by
    cases d4 with
    | nil => simp at h4
    | cons e1 d4' => exact ⟨e1, d4', rfl⟩
  have he1 : e1.isDigit = true := h4d e1 (by simp)
  unfold tryTaxSaleAt
  have h1 : ("Tax Sale ".toList ++ ((e1 :: d4') ++ ('-' :: (ds ++ (' ' :: rest))))).drop 8
      = ' ' :: ((e1 :: d4') ++ ('-' :: (ds ++ (' ' :: rest)))) := rfl
  have h2 : (' ' :: ((e1 :: d4') ++ ('-' :: (ds ++ (' ' :: rest))))).takeWhile isWS
      = [' '] := by
    rw [List.takeWhile_cons, if_pos (by decide), List.cons_append,
      List.takeWhile_cons, if_neg (by simp [isDigit_not_isWS he1])]
  have h3 : (' ' :: ((e1 :: d4') ++ ('-' :: (ds ++ (' ' :: rest))))).dropWhile isWS
      = (e1 :: d4') ++ ('-' :: (ds ++ (' ' :: rest))) := by
    rw [List.dropWhile_cons, if_pos (by decide), List.cons_append,
      List.dropWhile_cons, if_neg (by simp [isDigit_not_isWS he1]),
      ← List.cons_append]
  have h5 : (ds ++ (' ' :: rest)).takeWhile (fun c => c.isDigit) = ds := by
    rw [takeWhile_append_all _ _ _ (fun c hc => by simp [hdsd c hc]),
      List.takeWhile_cons, if_neg (by decide)]
    simp
  simp only [h1, h2, h3, takeDigits_exact 4 (e1 :: d4') ('-' :: (ds ++ (' ' :: rest))) h4 h4d,
    h5, if_neg hds, if_neg (show ¬([' '] : Chars) = [] by simp),
    if_pos (show ciPrefixB ("tax sale".toList)
      ("Tax Sale ".toList ++ ((e1 :: d4') ++ ('-' :: (ds ++ (' ' :: rest))))) = true
      from rfl)]

theorem trySaleDateAt_hit (m1 m2 n1 n2 y1 y2 y3 y4 : Char) (rest : Chars)
    (hm1 : m1.isDigit = true) (hm2 : m2.isDigit = true)
    (hn1 : n1.isDigit = true) (hn2 : n2.isDigit = true)
    (hy1 : y1.isDigit = true) (hy2 : y2.isDigit = true)
    (hy3 : y3.isDigit = true) (hy4 : y4.isDigit = true) :
    trySaleDateAt ("Sale Date: ".toList ++
      (dateVal m1 m2 n1 n2 y1 y2 y3 y4 ++ rest)) =
      some (dateVal m1 m2 n1 n2 y1 y2 y3 y4) := by
  unfold dateVal
  unfold trySaleDateAt
  have h1 : ("Sale Date: ".toList ++ ([m1, m2, '/', n1, n2, '/', y1, y2, y3, y4] ++ rest)).drop 10
      = ' ' :: ([m1, m2, '/', n1, n2, '/', y1, y2, y3, y4] ++ rest) := rfl
  have h2 : (' ' :: ([m1, m2, '/', n1, n2, '/', y1, y2, y3, y4] ++ rest)).dropWhile isWS
      = [m1, m2] ++ ('/' :: ([n1, n2] ++ ('/' :: ([y1, y2, y3, y4] ++ rest)))) := by
    rw [List.dropWhile_cons, if_pos (by decide), List.cons_append,
      List.dropWhile_cons, if_neg (by simp [isDigit_not_isWS hm1])]
    simp
  have hta : takeDigits 2 ([m1, m2] ++ ('/' :: ([n1, n2] ++ ('/' :: ([y1, y2, y3, y4] ++ rest)))))
      = some ([m1, m2], '/' :: ([n1, n2] ++ ('/' :: ([y1, y2, y3, y4] ++ rest)))) :=
    takeDigits_exact 2 [m1, m2] _ rfl (by
      intro c hc
      rcases List.mem_pair.mp hc with rfl | rfl
      · exact hm1
      · exact hm2)
  have htb : takeDigits 2 ([n1, n2] ++ ('/' :: ([y1, y2, y3, y4] ++ rest)))
      = some ([n1, n2], '/' :: ([y1, y2, y3, y4] ++ rest)) :=
    takeDigits_exact 2 [n1, n2] _ rfl (by
      intro c hc
      rcases List.mem_pair.mp hc with rfl | rfl
      · exact hn1
      · exact hn2)
  have htc : takeDigits 4 ([y1, y2, y3, y4] ++ rest) = some ([y1, y2, y3, y4], rest) :=
    takeDigits_exact 4 [y1, y2, y3, y4] rest rfl (by
      intro c hc
      simp only [List.mem_cons, List.not_mem_nil, or_false] at hc
      rcases hc with rfl | rfl | rfl | rfl
      · exact hy1
      · exact hy2
      · exact hy3
      · exact hy4)
  simp only [h1, h2, hta, htb, htc,
    if_pos (show ciPrefixB ("sale date:".toList)
      ("Sale Date: ".toList ++ ([m1, m2, '/', n1, n2, '/', y1, y2, y3, y4] ++ rest)) = true
      from rfl)]
  simp

theorem tryParcelAt_hit (pc rest : Chars) (hne : pc ≠ [])
    (hcls : ∀ c ∈ pc, c.isDigit = true ∨ c.isAlpha = true ∨ c = '-') :
    tryParcelAt ("Parcel: ".toList ++ (pc ++ (' ' :: rest))) = some pc := by
  obtain ⟨p0, pt, rfl⟩ : ∃ p0 pt, pc = p0 :: pt := by
    cases pc with
    | nil => exact absurd rfl hne
    | cons p0 pt => exact ⟨p0, pt, rfl⟩
  have hp0 : isWS p0 = false := by
    rcases hcls p0 (by simp) with h | h | h
    · exact isDigit_not_isWS h
    · exact isAlpha_not_isWS h
    · subst h; decide
  unfold tryParcelAt
  have h1 : ("Parcel: ".toList ++ ((p0 :: pt) ++ (' ' :: rest))).drop 7
      = ' ' :: ((p0 :: pt) ++ (' ' :: rest)) := rfl
  have h2 : (' ' :: ((p0 :: pt) ++ (' ' :: rest))).dropWhile isWS
      = (p0 :: pt) ++ (' ' :: rest) := by
    rw [List.dropWhile_cons, if_pos (by decide), List.cons_append,
      List.dropWhile_cons, if_neg (by simp [hp0]), ← List.cons_append]
  have h3 : ((p0 :: pt) ++ (' ' :: rest)).takeWhile
      (fun c => c.isDigit || c.isAlpha || c = '-') = p0 :: pt := by
    rw [takeWhile_append_all _ _ _ (fun c hc => by
      rcases hcls c hc with h | h | h
      · simp [h]
      · simp [h]
      · simp [h]),
      List.takeWhile_cons, if_neg (by decide)]
    simp
  simp only [h1, h2, h3, if_neg (show ¬(p0 :: pt) = ([] : Chars) by simp),
    if_pos (show ciPrefixB ("parcel:".toList)
      ("Parcel: ".toList ++ ((p0 :: pt) ++ (' ' :: rest))) = true from rfl)]


theorem tryMinBidAt_hit (ip rest : Chars) (bdec : Bool) (da db : Char)
    (hip : ip ≠ []) (hipc : ∀ c ∈ ip, c.isDigit = true ∨ c = ',')
    (hda : da.isDigit = true) (hdb : db.isDigit = true) :
    tryMinBidAt ("Min Bid: $".toList ++ (bidVal bdec ip da db ++ (' ' :: rest))) =
      some (bidVal bdec ip da db) := by
  obtain ⟨i0, it, rfl⟩ : ∃ i0 it, ip = i0 :: it := by
    cases ip with
    | nil => exact absurd rfl hip
    | cons i0 it => exact ⟨i0, it, rfl⟩
  have hi0 : isWS i0 = false := by
    rcases hipc i0 (by simp) with h | h
    · exact isDigit_not_isWS h
    · subst h; decide
  have hipcls : ∀ c ∈ i0 :: it, (c.isDigit || c = ',') = true := fun c hc => by
    rcases hipc c hc with h | h
    · simp [h]
    · simp [h]
  cases bdec with
  | false =>
    unfold bidVal
    simp only [Bool.false_eq_true, if_false]
    unfold tryMinBidAt
    have h1 : ("Min Bid: $".toList ++ ((i0 :: it) ++ (' ' :: rest))).drop 8
        = ' ' :: '$' :: ((i0 :: it) ++ (' ' :: rest)) := rfl
    have h2 : (' ' :: '$' :: ((i0 :: it) ++ (' ' :: rest))).dropWhile isWS
        = '$' :: ((i0 :: it) ++ (' ' :: rest)) := by
      rw [List.dropWhile_cons, if_pos (by decide), List.dropWhile_cons,
        if_neg (by decide)]
    have h3 : ((i0 :: it) ++ (' ' :: rest)).dropWhile isWS
        = (i0 :: it) ++ (' ' :: rest) := by
      rw [List.cons_append, List.dropWhile_cons, if_neg (by simp [hi0]),
        ← List.cons_append]
    have h4 : ((i0 :: it) ++ (' ' :: rest)).takeWhile
        (fun c => c.isDigit || c = ',') = i0 :: it := by
      rw [takeWhile_append_all _ _ _ hipcls, List.takeWhile_cons,
        if_neg (by decide)]
      simp
    have h5 : ((i0 :: it) ++ (' ' :: rest)).drop (i0 :: it).length = ' ' :: rest :=
      List.drop_left _ _
    simp only [h1, h2, h3, h4, h5, if_neg (show ¬(i0 :: it) = ([] : Chars) by simp),
      if_pos (show ciPrefixB ("min bid:".toList)
        ("Min Bid: $".toList ++ ((i0 :: it) ++ (' ' :: rest))) = true from rfl)]
    rfl
  | true =>
    unfold bidVal
    simp only [if_true]
    have hshape : ((i0 :: it) ++ '.' :: [da, db]) ++ (' ' :: rest)
        = (i0 :: it) ++ ('.' :: da :: db :: ' ' :: rest) := by simp
    rw [hshape]
    unfold tryMinBidAt
    have h1 : ("Min Bid: $".toList ++ ((i0 :: it) ++ ('.' :: da :: db :: ' ' :: rest))).drop 8
        = ' ' :: '$' :: ((i0 :: it) ++ ('.' :: da :: db :: ' ' :: rest)) := rfl
    have h2 : (' ' :: '$' :: ((i0 :: it) ++ ('.' :: da :: db :: ' ' :: rest))).dropWhile isWS
        = '$' :: ((i0 :: it) ++ ('.' :: da :: db :: ' ' :: rest)) := by
      rw [List.dropWhile_cons, if_pos (by decide), List.dropWhile_cons,
        if_neg (by decide)]
    have h3 : ((i0 :: it) ++ ('.' :: da :: db :: ' ' :: rest)).dropWhile isWS
        = (i0 :: it) ++ ('.' :: da :: db :: ' ' :: rest) := by
      rw [List.cons_append, List.dropWhile_cons, if_neg (by simp [hi0]),
        ← List.cons_append]
    have h4 : ((i0 :: it) ++ ('.' :: da :: db :: ' ' :: rest)).takeWhile
        (fun c => c.isDigit || c = ',') = i0 :: it := by
      rw [takeWhile_append_all _ _ _ hipcls, List.takeWhile_cons,
        if_neg (by decide)]
      simp
    have h5 : ((i0 :: it) ++ ('.' :: da :: db :: ' ' :: rest)).drop (i0 :: it).length
        = '.' :: da :: db :: ' ' :: rest := List.drop_left _ _
    have h6 : ((da :: db :: ' ' :: rest).take 2).length == 2
        && ((da :: db :: ' ' :: rest).take 2).all (fun c => c.isDigit) = true := by
      simp [hda, hdb]
    simp only [h1, h2, h3, h4, h5, if_neg (show ¬(i0 :: it) = ([] : Chars) by simp),
      if_pos (show ciPrefixB ("min bid:".toList)
        ("Min Bid: $".toList ++ ((i0 :: it) ++ ('.' :: da :: db :: ' ' :: rest))) = true
        from rfl)]
    rw [if_pos (by simp [hda, hdb])]
    simp

theorem tryStatusAt_hit (v tail : Chars) (hv : v ≠ [])
    (hcls : ∀ c ∈ v, c.isAlpha = true ∨ c = ' ')
    (hhd : ∀ c, v.head? = some c → isWS c = false)
    (hmid : ∀ n, 1 ≤ n → n < v.length → statusBoundary (v.drop n ++ tail) = false)
    (hend : statusBoundary tail = true) :
    tryStatusAt ("Status: ".toList ++ (v ++ tail)) = some v := by
  obtain ⟨v0, vt, rfl⟩ : ∃ v0 vt, v = v0 :: vt := by
    cases v with
    | nil => exact absurd rfl hv
    | cons v0 vt => exact ⟨v0, vt, rfl⟩
  have hv0 : isWS v0 = false := hhd v0 rfl
  unfold tryStatusAt
  have h1 : ("Status: ".toList ++ ((v0 :: vt) ++ tail)).drop 7
      = ' ' :: ((v0 :: vt) ++ tail) := rfl
  unfold tryWsStar
  have h2 : (' ' :: ((v0 :: vt) ++ tail)).takeWhile isWS = [' '] := by
    rw [List.takeWhile_cons, if_pos (by decide), List.cons_append,
      List.takeWhile_cons, if_neg (by simp [hv0])]
  have hcap : lazyClassCapture (fun c => c.isAlpha || c = ' ') statusBoundary
      ((v0 :: vt) ++ tail) = some (v0 :: vt) :=
    lazyClassCapture_exact _ _ (v0 :: vt) tail (by simp)
      (fun c hc => by rcases hcls c hc with h | h
                      · simp [h]
                      · simp [h])
      hmid hend
  have h3 : (' ' :: ((v0 :: vt) ++ tail)).drop 1 = (v0 :: vt) ++ tail := rfl
  simp only [h1, h2, if_pos (show ciPrefixB ("status:".toList)
    ("Status: ".toList ++ ((v0 :: vt) ++ tail)) = true from rfl),
    List.length_cons, List.length_nil]
  rw [show (0 : Nat) + 1 = 1 from rfl]
  rw [wsBacktrack]
  rw [h3, hcap]

theorem tryApplicantAt_hit (v tail : Chars) (hv : v ≠ [])
    (hcls : ∀ c ∈ v, c ≠ '\n')
    (hhd : ∀ c, v.head? = some c → isWS c = false)
    (hmid : ∀ n, 1 ≤ n → n < v.length → applicantBoundary (v.drop n ++ tail) = false)
    (hend : applicantBoundary tail = true) :
    tryApplicantAt ("Applicant Name: ".toList ++ (v ++ tail)) = some v := by
  obtain ⟨v0, vt, rfl⟩ : ∃ v0 vt, v = v0 :: vt := by
    cases v with
    | nil => exact absurd rfl hv
    | cons v0 vt => exact ⟨v0, vt, rfl⟩
  have hv0 : isWS v0 = false := hhd v0 rfl
  unfold tryApplicantAt
  have h1 : ("Applicant Name: ".toList ++ ((v0 :: vt) ++ tail)).drop 15
      = ' ' :: ((v0 :: vt) ++ tail) := rfl
  unfold tryWsStar
  have h2 : (' ' :: ((v0 :: vt) ++ tail)).takeWhile isWS = [' '] := by
    rw [List.takeWhile_cons, if_pos (by decide), List.cons_append,
      List.takeWhile_cons, if_neg (by simp [hv0])]
  have hcap : lazyClassCapture (fun c => c ≠ '\n') applicantBoundary
      ((v0 :: vt) ++ tail) = some (v0 :: vt) :=
    lazyClassCapture_exact _ _ (v0 :: vt) tail (by simp)
      (fun c hc => by simp [hcls c hc])
      hmid hend
  have h3 : (' ' :: ((v0 :: vt) ++ tail)).drop 1 = (v0 :: vt) ++ tail := rfl
  simp only [h1, h2, if_pos (show ciPrefixB ("applicant name:".toList)
    ("Applicant Name: ".toList ++ ((v0 :: vt) ++ tail)) = true from rfl),
    List.length_cons, List.length_nil]
  rw [show (0 : Nat) + 1 = 1 from rfl]
  rw [wsBacktrack]
  rw [h3, hcap]


/-- C3 (amended).  For every row holding any subset of the six labelled
fields in the table's canonical order (id, sale date, applicant,
status, parcel, minimum bid) with well-formed values, where a present
applicant field is followed by a status field whenever parcel or bid
fields follow, and where no label pattern matches before its own
segment nor anywhere when its field is absent, the parser returns
exactly the present labels' values and the empty string for each
missing label. -/
theorem field_isolation
    (bts bsd ban bst bpc bmb : Bool)
    (d4 ds : Chars) (m1 m2 n1 n2 y1 y2 y3 y4 : Char)
    (an st pc ip : Chars) (bdec : Bool) (da db : Char)
    (h4 : d4.length = 4) (h4d : ∀ c ∈ d4, c.isDigit = true)
    (hds : ds ≠ []) (hdsd : ∀ c ∈ ds, c.isDigit = true)
    (hm1 : m1.isDigit = true) (hm2 : m2.isDigit = true)
    (hn1 : n1.isDigit = true) (hn2 : n2.isDigit = true)
    (hy1 : y1.isDigit = true) (hy2 : y2.isDigit = true)
    (hy3 : y3.isDigit = true) (hy4 : y4.isDigit = true)
    (han : an ≠ []) (hanc : ∀ c ∈ an, c ≠ '\n')
    (hanh : isWS (an.headD 'x') = false) (hanl : isWS (an.getLastD 'x') = false)
    (hst : st ≠ []) (hstc : ∀ c ∈ st, c.isAlpha = true ∨ c = ' ')
    (hsth : isWS (st.headD 'x') = false) (hstl : isWS (st.getLastD 'x') = false)
    (hpc : pc ≠ []) (hpcc : ∀ c ∈ pc, c.isDigit = true ∨ c.isAlpha = true ∨ c = '-')
    (hip : ip ≠ []) (hipc : ∀ c ∈ ip, c.isDigit = true ∨ c = ',')
    (hda : da.isDigit = true) (hdb : db.isDigit = true)
    (hord : ban = true → bst = false → bpc = false ∧ bmb = false) :
    ∀ row, row = rowText bts bsd ban bst bpc bmb (idVal d4 ds)
        (dateVal m1 m2 n1 n2 y1 y2 y3 y4) an st pc (bidVal bdec ip da db) →
    (bts = false → scanFirst tryTaxSaleAt row = none) →
    (bsd = false → scanFirst trySaleDateAt row = none) →
    (ban = false → scanFirst tryApplicantAt row = none) →
    (bst = false → scanFirst tryStatusAt row = none) →
    (bpc = false → scanFirst tryParcelAt row = none) →
    (bmb = false → scanFirst tryMinBidAt row = none) →
    (bsd = true → ∀ n, n < (segTS bts (idVal d4 ds)).length →
      trySaleDateAt (row.drop n) = none) →
    (ban = true → ∀ n, n < (rowPre2 bts bsd (idVal d4 ds)
        (dateVal m1 m2 n1 n2 y1 y2 y3 y4)).length →
      tryApplicantAt (row.drop n) = none) →
    (bst = true → ∀ n, n < (rowPre3 bts bsd ban (idVal d4 ds)
        (dateVal m1 m2 n1 n2 y1 y2 y3 y4) an).length →
      tryStatusAt (row.drop n) = none) →
    (bpc = true → ∀ n, n < (rowPre4 bts bsd ban bst (idVal d4 ds)
        (dateVal m1 m2 n1 n2 y1 y2 y3 y4) an st).length →
      tryParcelAt (row.drop n) = none) →
    (bmb = true → ∀ n, n < (rowPre5 bts bsd ban bst bpc (idVal d4 ds)
        (dateVal m1 m2 n1 n2 y1 y2 y3 y4) an st pc).length →
      tryMinBidAt (row.drop n) = none) →
    (ban = true → ∀ n, n < an.length → 1 ≤ n →
      applicantBoundary (an.drop n ++ (' ' :: (segST bst st ++
        (segPC bpc pc ++ segMB bmb (bidVal bdec ip da db))))) = false) →
    (bst = true → ∀ n, n < st.length → 1 ≤ n →
      statusBoundary (st.drop n ++ (' ' :: (segPC bpc pc ++
        segMB bmb (bidVal bdec ip da db)))) = false) →
    parse_fields_from_row_text row = ⟨
      (if bts then idVal d4 ds else []),
      (if bsd then dateVal m1 m2 n1 n2 y1 y2 y3 y4 else []),
      (if bst then st else []),
      (if bpc then pc else []),
      (if bmb then bidVal bdec ip da db else []),
      (if ban then an else [])⟩ := by
  intro row hrow habs_ts habs_sd habs_an habs_st habs_pc habs_mb
    hpre_sd hpre_an hpre_st hpre_pc hpre_mb han_mid hst_mid
  subst hrow
  -- shared facts about the values
  have hanh' := headD_facts hanh
  have hanl' := getLastD_facts hanl
  have hsth' := headD_facts hsth
  have hstl' := getLastD_facts hstl
  have htrim_ts : trimChars (d4 ++ '-' :: ds) = d4 ++ '-' :: ds := by
    obtain ⟨e1, d4', rfl⟩ : ∃ e1 d4', d4 = e1 :: d4' := by
      cases d4 with
      | nil => simp at h4
      | cons e1 d4' => exact ⟨e1, d4', rfl⟩
    refine trimChars_eq_self _ (fun c hc => ?_) (fun c hc => ?_)
    · simp only [List.cons_append, List.head?_cons, Option.some.injEq] at hc
      exact isDigit_not_isWS (hc ▸ h4d e1 (by simp))
    · rw [getLast?_suffix _ _ (by simp), getLast?_cons_ne _ _ hds] at hc
      exact isDigit_not_isWS (hdsd c (mem_of_getLast? hc))
  have htrim_sd : trimChars (dateVal m1 m2 n1 n2 y1 y2 y3 y4)
      = dateVal m1 m2 n1 n2 y1 y2 y3 y4 := by
    refine trimChars_eq_self _ (fun c hc => ?_) (fun c hc => ?_)
    · simp only [dateVal, List.head?_cons, Option.some.injEq] at hc
      exact isDigit_not_isWS (hc ▸ hm1)
    · rw [show (dateVal m1 m2 n1 n2 y1 y2 y3 y4).getLast? = some y4 from rfl] at hc
      rw [Option.some.injEq] at hc
      exact isDigit_not_isWS (hc ▸ hy4)
  have htrim_pc : trimChars pc = pc := by
    refine trimChars_eq_self _ (fun c hc => ?_) (fun c hc => ?_)
    · rcases hpcc c (mem_of_head? hc) with h | h | h
      · exact isDigit_not_isWS h
      · exact isAlpha_not_isWS h
      · subst h; decide
    · rcases hpcc c (mem_of_getLast? hc) with h | h | h
      · exact isDigit_not_isWS h
      · exact isAlpha_not_isWS h
      · subst h; decide
  have hbv_mem : ∀ c ∈ bidVal bdec ip da db,
      c.isDigit = true ∨ c = ',' ∨ c = '.' := by
    intro c hc
    cases bdec with
    | false =>
      rcases hipc c (by simpa [bidVal] using hc) with h | h
      · exact Or.inl h
      · exact Or.inr (Or.inl h)
    | true =>
      simp only [bidVal, if_true, List.mem_append, List.mem_cons,
        List.not_mem_nil, or_false] at hc
      rcases hc with hc | hc | hc | hc
      · rcases hipc c hc with h | h
        · exact Or.inl h
        · exact Or.inr (Or.inl h)
      · exact Or.inr (Or.inr hc)
      · subst hc; exact Or.inl hda
      · subst hc; exact Or.inl hdb
  have htrim_mb : trimChars (bidVal bdec ip da db) = bidVal bdec ip da db := by
    refine trimChars_eq_self _ (fun c hc => ?_) (fun c hc => ?_)
    · rcases hbv_mem c (mem_of_head? hc) with h | h | h
      · exact isDigit_not_isWS h
      · subst h; decide
      · subst h; decide
    · rcases hbv_mem c (mem_of_getLast? hc) with h | h | h
      · exact isDigit_not_isWS h
      · subst h; decide
      · subst h; decide
  -- tax-sale id
  have hTS : pick tryTaxSaleAt (rowText bts bsd ban bst bpc bmb (idVal d4 ds)
      (dateVal m1 m2 n1 n2 y1 y2 y3 y4) an st pc (bidVal bdec ip da db))
      = (if bts then idVal d4 ds else []) := by
    cases bts with
    | false => exact pick_none _ _ (habs_ts rfl)
    | true =>
      have hsplit : rowText true bsd ban bst bpc bmb (idVal d4 ds)
          (dateVal m1 m2 n1 n2 y1 y2 y3 y4) an st pc (bidVal bdec ip da db)
          = "Tax Sale ".toList ++ (d4 ++ ('-' :: (ds ++ (' ' ::
            (segSD bsd (dateVal m1 m2 n1 n2 y1 y2 y3 y4) ++ (segAN ban an ++
              (segST bst st ++ (segPC bpc pc ++
                segMB bmb (bidVal bdec ip da db))))))))) := by
        simp [rowText, segTS, segIf, idVal, List.append_assoc]
      show pick tryTaxSaleAt _ = idVal d4 ds
      rw [hsplit]
      unfold pick
      rw [scanFirst_of_some _ _ _ (tryTaxSaleAt_hit d4 ds _ h4 h4d hds hdsd)]
      exact htrim_ts
  -- sale date
  have hSD : pick trySaleDateAt (rowText bts bsd ban bst bpc bmb (idVal d4 ds)
      (dateVal m1 m2 n1 n2 y1 y2 y3 y4) an st pc (bidVal bdec ip da db))
      = (if bsd then dateVal m1 m2 n1 n2 y1 y2 y3 y4 else []) := by
    cases bsd with
    | false => exact pick_none _ _ (habs_sd rfl)
    | true =>
      show pick trySaleDateAt _ = dateVal m1 m2 n1 n2 y1 y2 y3 y4
      have hpre' : ∀ n, n < (segTS bts (idVal d4 ds)).length →
          trySaleDateAt ((segTS bts (idVal d4 ds)).drop n ++
            (segSD true (dateVal m1 m2 n1 n2 y1 y2 y3 y4) ++ (segAN ban an ++
              (segST bst st ++ (segPC bpc pc ++
                segMB bmb (bidVal bdec ip da db)))))) = none := by
        intro n hn
        have h := hpre_sd rfl n hn
        rwa [show rowText bts true ban bst bpc bmb (idVal d4 ds)
            (dateVal m1 m2 n1 n2 y1 y2 y3 y4) an st pc (bidVal bdec ip da db)
          = segTS bts (idVal d4 ds) ++
            (segSD true (dateVal m1 m2 n1 n2 y1 y2 y3 y4) ++ (segAN ban an ++
              (segST bst st ++ (segPC bpc pc ++
                segMB bmb (bidVal bdec ip da db))))) from rfl,
          List.drop_append_of_le_length (le_of_lt hn)] at h
      have hhit : trySaleDateAt (segSD true (dateVal m1 m2 n1 n2 y1 y2 y3 y4) ++
          (segAN ban an ++ (segST bst st ++ (segPC bpc pc ++
            segMB bmb (bidVal bdec ip da db)))))
          = some (dateVal m1 m2 n1 n2 y1 y2 y3 y4) := by
        rw [show segSD true (dateVal m1 m2 n1 n2 y1 y2 y3 y4) ++
            (segAN ban an ++ (segST bst st ++ (segPC bpc pc ++
              segMB bmb (bidVal bdec ip da db))))
          = "Sale Date: ".toList ++ (dateVal m1 m2 n1 n2 y1 y2 y3 y4 ++
            (' ' :: (segAN ban an ++ (segST bst st ++ (segPC bpc pc ++
              segMB bmb (bidVal bdec ip da db))))))
          from by simp [segSD, segIf, List.append_assoc]]
        exact trySaleDateAt_hit m1 m2 n1 n2 y1 y2 y3 y4 _
          hm1 hm2 hn1 hn2 hy1 hy2 hy3 hy4
      rw [show rowText bts true ban bst bpc bmb (idVal d4 ds)
          (dateVal m1 m2 n1 n2 y1 y2 y3 y4) an st pc (bidVal bdec ip da db)
        = segTS bts (idVal d4 ds) ++
          (segSD true (dateVal m1 m2 n1 n2 y1 y2 y3 y4) ++ (segAN ban an ++
            (segST bst st ++ (segPC bpc pc ++
              segMB bmb (bidVal bdec ip da db))))) from rfl]
      rw [pick_hit trySaleDateAt _ _ _ hpre' hhit]
      exact htrim_sd
  -- applicant name
  have hAN : pick tryApplicantAt (rowText bts bsd ban bst bpc bmb (idVal d4 ds)
      (dateVal m1 m2 n1 n2 y1 y2 y3 y4) an st pc (bidVal bdec ip da db))
      = (if ban then an else []) := by
    cases ban with
    | false => exact pick_none _ _ (habs_an rfl)
    | true =>
      show pick tryApplicantAt _ = an
      have hrowsplit : rowText bts bsd true bst bpc bmb (idVal d4 ds)
          (dateVal m1 m2 n1 n2 y1 y2 y3 y4) an st pc (bidVal bdec ip da db)
          = rowPre2 bts bsd (idVal d4 ds) (dateVal m1 m2 n1 n2 y1 y2 y3 y4) ++
            (segAN true an ++ (segST bst st ++ (segPC bpc pc ++
              segMB bmb (bidVal bdec ip da db)))) := by
        simp [rowText, rowPre2, List.append_assoc]
      have hpre' : ∀ n, n < (rowPre2 bts bsd (idVal d4 ds)
          (dateVal m1 m2 n1 n2 y1 y2 y3 y4)).length →
          tryApplicantAt ((rowPre2 bts bsd (idVal d4 ds)
            (dateVal m1 m2 n1 n2 y1 y2 y3 y4)).drop n ++
            (segAN true an ++ (segST bst st ++ (segPC bpc pc ++
              segMB bmb (bidVal bdec ip da db))))) = none := by
        intro n hn
        have h := hpre_an rfl n hn
        rwa [hrowsplit, List.drop_append_of_le_length (le_of_lt hn)] at h
      rw [hrowsplit]
      cases bst with
      | true =>
        have hhit : tryApplicantAt (segAN true an ++ (segST true st ++
            (segPC bpc pc ++ segMB bmb (bidVal bdec ip da db)))) = some an := by
          rw [show segAN true an ++ (segST true st ++ (segPC bpc pc ++
              segMB bmb (bidVal bdec ip da db)))
            = "Applicant Name: ".toList ++ (an ++ (' ' :: (segST true st ++
              (segPC bpc pc ++ segMB bmb (bidVal bdec ip da db)))))
            from by simp [segAN, segIf, List.append_assoc]]
          exact tryApplicantAt_hit an _ han hanc hanh'
            (fun n h1 hn => han_mid rfl n hn h1) rfl
        rw [pick_hit tryApplicantAt _ _ _ hpre' hhit]
        exact trimChars_eq_self an hanh' hanl'
      | false =>
        obtain ⟨hbpc, hbmb⟩ := hord rfl rfl
        subst hbpc
        subst hbmb
        have hhit : tryApplicantAt (segAN true an ++ (segST false st ++
            (segPC false pc ++ segMB false (bidVal bdec ip da db))))
            = some (an ++ [' ']) := by
          rw [show segAN true an ++ (segST false st ++ (segPC false pc ++
              segMB false (bidVal bdec ip da db)))
            = "Applicant Name: ".toList ++ ((an ++ [' ']) ++ [])
            from by simp [segAN, segST, segPC, segMB, segIf]]
          refine tryApplicantAt_hit (an ++ [' ']) [] (by simp)
            (fun c hc => ?_) (fun c hc => ?_) (fun n h1 hn => ?_) (by decide)
          · rcases List.mem_append.mp hc with h | h
            · exact hanc c h
            · simp only [List.mem_singleton] at h
              subst h
              decide
          · rcases List.exists_cons_of_ne_nil han with ⟨a0, at', hat⟩
            rw [hat] at hc
            simp only [List.cons_append, List.head?_cons, Option.some.injEq] at hc
            have := hanh' a0 (by rw [hat]; rfl)
            exact hc ▸ this
          · rw [List.append_nil]
            rcases Nat.lt_or_ge n an.length with hlt | hge
            · rw [List.drop_append_of_le_length (le_of_lt hlt)]
              have := han_mid rfl n hlt h1
              simpa [segST, segPC, segMB, segIf] using this
            · have hn' : n = an.length := by
                simp only [List.length_append, List.length_cons,
                  List.length_nil] at hn
                omega
              subst hn'
              rw [List.drop_left]
              decide
        rw [pick_hit tryApplicantAt _ _ _ hpre' hhit]
        exact trimChars_append_ws an hanh' hanl'
  -- status
  have hST : pick tryStatusAt (rowText bts bsd ban bst bpc bmb (idVal d4 ds)
      (dateVal m1 m2 n1 n2 y1 y2 y3 y4) an st pc (bidVal bdec ip da db))
      = (if bst then st else []) := by
    cases bst with
    | false => exact pick_none _ _ (habs_st rfl)
    | true =>
      show pick tryStatusAt _ = st
      have hrowsplit : rowText bts bsd ban true bpc bmb (idVal d4 ds)
          (dateVal m1 m2 n1 n2 y1 y2 y3 y4) an st pc (bidVal bdec ip da db)
          = rowPre3 bts bsd ban (idVal d4 ds)
              (dateVal m1 m2 n1 n2 y1 y2 y3 y4) an ++
            (segST true st ++ (segPC bpc pc ++
              segMB bmb (bidVal bdec ip da db))) := by
        simp [rowText, rowPre3, rowPre2, List.append_assoc]
      have hpre' : ∀ n, n < (rowPre3 bts bsd ban (idVal d4 ds)
          (dateVal m1 m2 n1 n2 y1 y2 y3 y4) an).length →
          tryStatusAt ((rowPre3 bts bsd ban (idVal d4 ds)
            (dateVal m1 m2 n1 n2 y1 y2 y3 y4) an).drop n ++
            (segST true st ++ (segPC bpc pc ++
              segMB bmb (bidVal bdec ip da db)))) = none := by
        intro n hn
        have h := hpre_st rfl n hn
        rwa [hrowsplit, List.drop_append_of_le_length (le_of_lt hn)] at h
      rw [hrowsplit]
      have hstcls : ∀ c ∈ st, (c.isAlpha = true ∨ c = ' ') := hstc
      cases bpc with
      | true =>
        have hhit : tryStatusAt (segST true st ++ (segPC true pc ++
            segMB bmb (bidVal bdec ip da db))) = some st := by
          rw [show segST true st ++ (segPC true pc ++
              segMB bmb (bidVal bdec ip da db))
            = "Status: ".toList ++ (st ++ (' ' :: (segPC true pc ++
              segMB bmb (bidVal bdec ip da db))))
            from by simp [segST, segIf, List.append_assoc]]
          exact tryStatusAt_hit st _ hst hstc hsth'
            (fun n h1 hn => hst_mid rfl n hn h1) rfl
        rw [pick_hit tryStatusAt _ _ _ hpre' hhit]
        exact trimChars_eq_self st hsth' hstl'
      | false =>
        cases bmb with
        | true =>
          have hhit : tryStatusAt (segST true st ++ (segPC false pc ++
              segMB true (bidVal bdec ip da db))) = some st := by
            rw [show segST true st ++ (segPC false pc ++
                segMB true (bidVal bdec ip da db))
              = "Status: ".toList ++ (st ++ (' ' :: (segPC false pc ++
                segMB true (bidVal bdec ip da db))))
              from by simp [segST, segIf, List.append_assoc]]
            exact tryStatusAt_hit st _ hst hstc hsth'
              (fun n h1 hn => hst_mid rfl n hn h1) rfl
          rw [pick_hit tryStatusAt _ _ _ hpre' hhit]
          exact trimChars_eq_self st hsth' hstl'
        | false =>
          have hhit : tryStatusAt (segST true st ++ (segPC false pc ++
              segMB false (bidVal bdec ip da db))) = some (st ++ [' ']) := by
            rw [show segST true st ++ (segPC false pc ++
                segMB false (bidVal bdec ip da db))
              = "Status: ".toList ++ ((st ++ [' ']) ++ [])
              from by simp [segST, segPC, segMB, segIf]]
            refine tryStatusAt_hit (st ++ [' ']) [] (by simp)
              (fun c hc => ?_) (fun c hc => ?_) (fun n h1 hn => ?_) (by decide)
            · rcases List.mem_append.mp hc with h | h
              · exact hstc c h
              · simp only [List.mem_singleton] at h
                exact Or.inr h
            · rcases List.exists_cons_of_ne_nil hst with ⟨s0, st', hat⟩
              rw [hat] at hc
              simp only [List.cons_append, List.head?_cons, Option.some.injEq] at hc
              have := hsth' s0 (by rw [hat]; rfl)
              exact hc ▸ this
            · rw [List.append_nil]
              rcases Nat.lt_or_ge n st.length with hlt | hge
              · rw [List.drop_append_of_le_length (le_of_lt hlt)]
                have := hst_mid rfl n hlt h1
                simpa [segPC, segMB, segIf] using this
              · have hn' : n = st.length := by
                  simp only [List.length_append, List.length_cons,
                    List.length_nil] at hn
                  omega
                subst hn'
                rw [List.drop_left]
                decide
          rw [pick_hit tryStatusAt _ _ _ hpre' hhit]
          exact trimChars_append_ws st hsth' hstl'
  -- parcel
  have hPC : pick tryParcelAt (rowText bts bsd ban bst bpc bmb (idVal d4 ds)
      (dateVal m1 m2 n1 n2 y1 y2 y3 y4) an st pc (bidVal bdec ip da db))
      = (if bpc then pc else []) := by
    cases bpc with
    | false => exact pick_none _ _ (habs_pc rfl)
    | true =>
      show pick tryParcelAt _ = pc
      have hrowsplit : rowText bts bsd ban bst true bmb (idVal d4 ds)
          (dateVal m1 m2 n1 n2 y1 y2 y3 y4) an st pc (bidVal bdec ip da db)
          = rowPre4 bts bsd ban bst (idVal d4 ds)
              (dateVal m1 m2 n1 n2 y1 y2 y3 y4) an st ++
            (segPC true pc ++ segMB bmb (bidVal bdec ip da db)) := by
        simp [rowText, rowPre4, rowPre3, rowPre2, List.append_assoc]
      have hpre' : ∀ n, n < (rowPre4 bts bsd ban bst (idVal d4 ds)
          (dateVal m1 m2 n1 n2 y1 y2 y3 y4) an st).length →
          tryParcelAt ((rowPre4 bts bsd ban bst (idVal d4 ds)
            (dateVal m1 m2 n1 n2 y1 y2 y3 y4) an st).drop n ++
            (segPC true pc ++ segMB bmb (bidVal bdec ip da db))) = none := by
        intro n hn
        have h := hpre_pc rfl n hn
        rwa [hrowsplit, List.drop_append_of_le_length (le_of_lt hn)] at h
      have hhit : tryParcelAt (segPC true pc ++
          segMB bmb (bidVal bdec ip da db)) = some pc := by
        rw [show segPC true pc ++ segMB bmb (bidVal bdec ip da db)
          = "Parcel: ".toList ++ (pc ++ (' ' ::
            segMB bmb (bidVal bdec ip da db)))
          from by simp [segPC, segIf, List.append_assoc]]
        exact tryParcelAt_hit pc _ hpc hpcc
      rw [hrowsplit]
      rw [pick_hit tryParcelAt _ _ _ hpre' hhit]
      exact htrim_pc
  -- minimum bid
  have hMB : pick tryMinBidAt (rowText bts bsd ban bst bpc bmb (idVal d4 ds)
      (dateVal m1 m2 n1 n2 y1 y2 y3 y4) an st pc (bidVal bdec ip da db))
      = (if bmb then bidVal bdec ip da db else []) := by
    cases bmb with
    | false => exact pick_none _ _ (habs_mb rfl)
    | true =>
      show pick tryMinBidAt _ = bidVal bdec ip da db
      have hrowsplit : rowText bts bsd ban bst bpc true (idVal d4 ds)
          (dateVal m1 m2 n1 n2 y1 y2 y3 y4) an st pc (bidVal bdec ip da db)
          = rowPre5 bts bsd ban bst bpc (idVal d4 ds)
              (dateVal m1 m2 n1 n2 y1 y2 y3 y4) an st pc ++
            segMB true (bidVal bdec ip da db) := by
        simp [rowText, rowPre5, rowPre4, rowPre3, rowPre2, List.append_assoc]
      have hpre' : ∀ n, n < (rowPre5 bts bsd ban bst bpc (idVal d4 ds)
          (dateVal m1 m2 n1 n2 y1 y2 y3 y4) an st pc).length →
          tryMinBidAt ((rowPre5 bts bsd ban bst bpc (idVal d4 ds)
            (dateVal m1 m2 n1 n2 y1 y2 y3 y4) an st pc).drop n ++
            segMB true (bidVal bdec ip da db)) = none := by
        intro n hn
        have h := hpre_mb rfl n hn
        rwa [hrowsplit, List.drop_append_of_le_length (le_of_lt hn)] at h
      have hhit : tryMinBidAt (segMB true (bidVal bdec ip da db))
          = some (bidVal bdec ip da db) := by
        rw [show segMB true (bidVal bdec ip da db)
          = "Min Bid: $".toList ++ (bidVal bdec ip da db ++ (' ' :: []))
          from by simp [segMB, segIf]]
        exact tryMinBidAt_hit ip [] bdec da db hip hipc hda hdb
      rw [hrowsplit]
      rw [pick_hit tryMinBidAt _ _ _ hpre' hhit]
      exact htrim_mb
  simp only [parse_fields_from_row_text]
  rw [hTS, hSD, hST, hPC, hMB, hAN]


/-- C3 (counterexample).  In the row `Applicant Name: John Doe Parcel:
123-A` the applicant capture, whose only terminators are `Status:` and
end of string, swallows the entire later parcel field, so a field's
captured value can include text belonging to a later label's field. -/
theorem field_contamination_counterexample :
    (parse_fields_from_row_text
        "Applicant Name: John Doe Parcel: 123-A".toList).applicant_name =
      "John Doe Parcel: 123-A".toList ∧
    (parse_fields_from_row_text
        "Applicant Name: John Doe Parcel: 123-A".toList).parcel_number =
      "123-A".toList := by
  decide

/-- Witness for C3 at a concrete full row. -/
theorem field_isolation_witness :
    parse_fields_from_row_text (rowText true true true true true true
      "2024-001".toList "01/02/2024".toList "John Doe".toList
      "Redeemed".toList "12-AB-34".toList "1,234.56".toList) =
    ⟨"2024-001".toList, "01/02/2024".toList, "Redeemed".toList,
      "12-AB-34".toList, "1,234.56".toList, "John Doe".toList⟩ := by
  have h := field_isolation true true true true true true
    "2024".toList "001".toList '0' '1' '0' '2' '2' '0' '2' '4'
    "John Doe".toList "Redeemed".toList "12-AB-34".toList "1,234".toList
    true '5' '6'
    (by decide) (by decide) (by decide) (by decide) (by decide) (by decide)
    (by decide) (by decide) (by decide) (by decide) (by decide) (by decide)
    (by decide) (by decide) (by decide) (by decide) (by decide) (by decide)
    (by decide) (by decide) (by decide) (by decide) (by decide) (by decide)
    (by decide) (by decide) (by decide)
    (rowText true true true true true true (idVal "2024".toList "001".toList)
      (dateVal '0' '1' '0' '2' '2' '0' '2' '4') "John Doe".toList
      "Redeemed".toList "12-AB-34".toList (bidVal true "1,234".toList '5' '6'))
    rfl
    (by decide) (by decide) (by decide) (by decide) (by decide) (by decide)
    (by decide) (by decide) (by decide) (by decide) (by decide)
    (by decide) (by decide)
  exact h

end TaxSale
